import Mathlib

/-!
Verification development for the rdv relay-assisted TCP p2p connectivity core
(package rdv: wire framing, address model, rendezvous server lobby, picker,
client preflight). Go strings are modeled as byte lists (List Nat, each < 256);
Go maps as association lists; the server's serial reconciliation loop as a step
function over its idle map. Standard-library helpers used by the code
(fmt.Sscanf token scanning, net/url path escaping, net/netip address parsing
and comparison, bufio line reading) are modeled from their documented behavior
at byte level, restricted to ASCII where the code only ever meets ASCII.
-/

namespace Rdv

/-- A Go string, as its byte sequence (each entry is a byte value < 256). -/
abbrev GoStr := List Nat

/-- Whitespace in the sense of fmt's scanning functions: any space character
except newline ('\x20', '\t', '\v', '\f', '\r'); ASCII fragment. -/
def isSpaceB (b : Nat) : Bool :=
  b == 32 || b == 9 || b == 11 || b == 12 || b == 13

/-- The newline byte. -/
def isNlB (b : Nat) : Bool := b == 10

/-- A byte that a %s / %v verb consumes: neither space nor newline. -/
def isTokB (b : Nat) : Bool := !(isSpaceB b) && !(isNlB b)

/-- Scan one space-delimited token, as the %s and %v verbs do: discard leading
spaces (not newlines), then take the maximal run of non-space non-newline
bytes; fails if that run is empty (unexpected newline / EOF). -/
def scanTok (s : GoStr) : Option (GoStr × GoStr) :=
  if ((s.dropWhile isSpaceB).takeWhile isTokB).isEmpty then none
  else some ((s.dropWhile isSpaceB).takeWhile isTokB, (s.dropWhile isSpaceB).dropWhile isTokB)

/-- Match a trailing "\n" in a scan format: zero or more spaces followed by a
newline or the end of the input. -/
def scanEol (s : GoStr) : Bool :=
  match s.dropWhile isSpaceB with
  | [] => true
  | b :: _ => isNlB b

/-- fmt.Sscanf(line, "%v %s %s\n", ...) for three string operands: three
space-separated tokens followed by optional spaces and a newline or EOF.
Returns none when the scan reports an error. -/
def sscanf3 (line : GoStr) : Option (GoStr × GoStr × GoStr) :=
  match scanTok line with
  | none => none
  | some (t1, r1) =>
    match scanTok r1 with
    | none => none
    | some (t2, r2) =>
      match scanTok r2 with
      | none => none
      | some (t3, r3) => if scanEol r3 then some (t1, t2, t3) else none

/-- fmt.Sscanf(line, "%v %s\n", &cmd, &arg) with partial results: Go leaves an
operand at its previous (zero) value when its verb fails, and readCmdContinue
inspects cmd before checking the error, so the model returns the partially
filled (cmd, arg) together with the success flag. -/
def sscanf2 (line : GoStr) : GoStr × GoStr × Bool :=
  match scanTok line with
  | none => ([], [], false)
  | some (t1, r1) =>
    match scanTok r1 with
    | none => (t1, [], false)
    | some (t2, r2) => (t1, t2, scanEol r2)

/-- Alphanumeric ASCII byte (net/url shouldEscape first test). -/
def isAlphaNumB (b : Nat) : Bool :=
  (97 ≤ b && b ≤ 122) || (65 ≤ b && b ≤ 90) || (48 ≤ b && b ≤ 57)

/-- net/url shouldEscape(c, encodePathSegment): false exactly for
alphanumerics, the unreserved marks '-' '_' '.' '~', and the reserved
characters '$' '&' '+' ':' '=' '@' that a path segment may keep; every other
byte (including '/', ';', ',', '?', '%', space and all non-ASCII bytes) is
escaped. -/
def shouldEscapeSeg (b : Nat) : Bool :=
  if isAlphaNumB b then false
  else if b == 45 || b == 95 || b == 46 || b == 126 then false
  else if b == 36 || b == 38 || b == 43 || b == 58 || b == 61 || b == 64 then false
  else true

/-- Upper-case hex digit byte for a nibble, as in net/url's "0123456789ABCDEF". -/
def hexDigitU (n : Nat) : Nat := if n < 10 then 48 + n else 55 + n

/-- url.PathEscape: percent-encode every byte that shouldEscape reports for
the path-segment mode. -/
def pathEscape : GoStr → GoStr
  | [] => []
  | b :: rest =>
    if shouldEscapeSeg b then
      37 :: hexDigitU (b / 16) :: hexDigitU (b % 16) :: pathEscape rest
    else
      b :: pathEscape rest

/-- net/url ishex: an ASCII hex digit. -/
def ishexB (b : Nat) : Bool :=
  (48 ≤ b && b ≤ 57) || (97 ≤ b && b ≤ 102) || (65 ≤ b && b ≤ 70)

/-- net/url unhex: value of an ASCII hex digit. -/
def unhexB (b : Nat) : Nat :=
  if 48 ≤ b && b ≤ 57 then b - 48
  else if 97 ≤ b && b ≤ 102 then b - 97 + 10
  else if 65 ≤ b && b ≤ 70 then b - 65 + 10
  else 0

/-- url.PathUnescape: decode %XX escapes, failing on a malformed escape; in
path mode '+' and every other byte are copied through unchanged. -/
def pathUnescape : GoStr → Option GoStr
  | [] => some []
  | b :: rest =>
    if b = 37 then
      match rest with
      | h1 :: h2 :: rest2 =>
        if ishexB h1 && ishexB h2 then
          (pathUnescape rest2).map (fun t => (unhexB h1 * 16 + unhexB h2) :: t)
        else none
      | _ => none
    else
      (pathUnescape rest).map (fun t => b :: t)
termination_by s => s.length
decreasing_by
  · simp only [List.length_cons]; omega
  · simp only [List.length_cons]; omega

/-- The protocol name "rdv/1" as bytes. -/
def protocolName : GoStr := [114, 100, 118, 47, 49]

/-- The method string "DIAL" as bytes. -/
def DIALb : GoStr := [68, 73, 65, 76]

/-- The method string "ACCEPT" as bytes. -/
def ACCEPTb : GoStr := [65, 67, 67, 69, 80, 84]

/-- The command "CONTINUE" as bytes. -/
def CONTINUEb : GoStr := [67, 79, 78, 84, 73, 78, 85, 69]

/-- The command "OTHER" as bytes. -/
def OTHERb : GoStr := [79, 84, 72, 69, 82]

/-- bufio's default buffer size, used by every bufio.NewReader in this code. -/
def goBufSize : Nat := 4096

/-- An rdv header, exchanged between peers, e.g. "rdv/1 DIAL token". -/
structure RdvHeader where
  method : GoStr
  token : GoStr
deriving DecidableEq

/-- readLine: bufio.Reader.ReadSlice('\n') through a buffer of bufSize bytes,
returning the line including its newline. It fails (ErrBufferFull) when no
newline occurs within the first bufSize bytes, and (ErrUnexpectedEOF / EOF)
when the input ends before a newline. -/
def bufReadLine (bufSize : Nat) (s : GoStr) : Option (GoStr × GoStr) :=
  if 10 ∈ s.take bufSize then
    some (s.takeWhile (fun b => !(b == 10)) ++ [10],
          (s.dropWhile (fun b => !(b == 10))).tail)
  else none

/-- writeHeader: fmt.Fprintf(w, "%v %s %s\n", protocolName, h.method,
url.PathEscape(h.token)). -/
def writeHeader (h : RdvHeader) : GoStr :=
  protocolName ++ 32 :: h.method ++ 32 :: pathEscape h.token ++ [10]

/-- The body of readHeader after the line read: scan the line with
fmt.Sscanf(line, "%v %s %s\n", ...), check the protocol name, and path-unescape
the token. Any scan error, wrong protocol name or malformed token is an
error (none). -/
def parseHeaderLine (line : GoStr) : Option RdvHeader :=
  match sscanf3 line with
  | none => none
  | some (pn, m, tok) =>
    if pn ≠ protocolName then none
    else
      match pathUnescape tok with
      | none => none
      | some t => some ⟨m, t⟩

/-- readHeader: read one line from the buffered reader (readLine), then parse
it as an rdv header line. -/
def readHeader (bufSize : Nat) (s : GoStr) : Option RdvHeader :=
  match bufReadLine bufSize s with
  | none => none
  | some (line, _) => parseHeaderLine line

/-- A sample token containing '/', a space, '%' and a multi-byte UTF-8
character ("a/ %" followed by U+4F60). -/
def tok0 : GoStr := [97, 47, 32, 37, 228, 189, 160]

/-! ### net/netip address model -/

/-- net/netip.Addr: family bit length (0 invalid, 32 IPv4, 128 IPv6), the
address value (netip keeps a 128-bit integer; IPv4 values are kept as 32-bit
numbers here, sound because Compare orders by family first), and the zone.
Addr.Compare equal implies equal address. -/
structure Addr where
  bitLen : Nat
  value : Nat
  zone : GoStr
deriving DecidableEq

/-- The zero (invalid) netip.Addr. -/
def zeroAddr : Addr := ⟨0, 0, []⟩

/-- netip.AddrPort. -/
structure AddrPort where
  addr : Addr
  port : Nat
deriving DecidableEq

/-- The zero netip.AddrPort, what an ignored ParseAddrPort error leaves. -/
def zeroAddrPort : AddrPort := ⟨zeroAddr, 0⟩

/-- cmp.Compare on naturals. -/
def natCmp (a b : Nat) : Ordering :=
  if a < b then .lt else if b < a then .gt else .eq

/-- Go string comparison: bytewise lexicographic, shorter first. -/
def strCmpB : GoStr → GoStr → Ordering
  | [], [] => .eq
  | [], _ :: _ => .lt
  | _ :: _, [] => .gt
  | a :: as, b :: bs => (natCmp a b).then (strCmpB as bs)

/-- netip.Addr.Compare: by bit length (family), then value, then zone. -/
def addrCompare (a b : Addr) : Ordering :=
  (natCmp a.bitLen b.bitLen).then ((natCmp a.value b.value).then (strCmpB a.zone b.zone))

/-- netip.AddrPort.Compare: by address, then port. -/
def addrPortCompare (a b : AddrPort) : Ordering :=
  (addrCompare a.addr b.addr).then (natCmp a.port b.port)

/-- The non-strict order induced by AddrPort.Compare. -/
def apLe (a b : AddrPort) : Prop := addrPortCompare a b ≠ .gt

instance apLeDec : DecidableRel apLe := fun a b =>
  match h : addrPortCompare a b with
  | .lt => isTrue (fun hc => by rw [h] at hc; exact Ordering.noConfusion hc)
  | .eq => isTrue (fun hc => by rw [h] at hc; exact Ordering.noConfusion hc)
  | .gt => isFalse (fun hc => hc h)

/-- slices.SortFunc with netip.AddrPort.Compare. SortFunc is unstable, but
this comparator is antisymmetric up to equality, so every sorted permutation
of a list is the same list; insertion sort realizes it. -/
def goSortAddrPorts (l : List AddrPort) : List AddrPort :=
  l.insertionSort apLe

/-- The tail of slices.Compact: drop elements equal to their predecessor. -/
def goCompactTail (prev : AddrPort) : List AddrPort → List AddrPort
  | [] => []
  | b :: rest => if prev = b then goCompactTail prev rest else b :: goCompactTail b rest

/-- slices.Compact: collapse runs of consecutive equal elements to one copy. -/
def goCompact : List AddrPort → List AddrPort
  | [] => []
  | a :: rest => a :: goCompactTail a rest

/-! ### net/netip textual parsing (standard library model) -/

/-- ASCII decimal digit. -/
def isDigitB (b : Nat) : Bool := 48 ≤ b && b ≤ 57

/-- strconv.ParseUint(s, 10, 16): non-empty decimal digits below 2^16. -/
def parsePort (s : GoStr) : Option Nat :=
  if s = [] then none
  else if s.all isDigitB then
    let v := s.foldl (fun acc b => acc * 10 + (b - 48)) 0
    if v < 65536 then some v else none
  else none

/-- netip parseIPv4Fields: digits and dots; rejects an octet with a leading
zero, a value over 255, an empty field, a trailing dot and a fifth field.
Carries (remaining, current value, digits in current octet, fields so far). -/
def v4Loop : GoStr → Nat → Nat → List Nat → Option (List Nat)
  | [], val, _, fields =>
    if fields.length < 3 then none else some (fields ++ [val])
  | c :: rest, val, digLen, fields =>
    if isDigitB c then
      if digLen = 1 ∧ val = 0 then none
      else
        let val2 := val * 10 + (c - 48)
        if val2 > 255 then none
        else v4Loop rest val2 (digLen + 1) fields
    else if c = 46 then
      if digLen = 0 ∨ rest = [] then none
      else if fields.length = 3 then none
      else v4Loop rest 0 0 (fields ++ [val])
    else none

/-- netip parseIPv4: four dotted decimal octets into a 32-bit value. -/
def parseV4 (s : GoStr) : Option Addr :=
  match v4Loop s 0 0 [] with
  | some [f0, f1, f2, f3] => some ⟨32, ((f0 * 256 + f1) * 256 + f2) * 256 + f3, []⟩
  | _ => none

/-- Hex digit value for the IPv6 scanner. -/
def hexVal (b : Nat) : Option Nat :=
  if 48 ≤ b ∧ b ≤ 57 then some (b - 48)
  else if 97 ≤ b ∧ b ≤ 102 then some (b - 97 + 10)
  else if 65 ≤ b ∧ b ≤ 70 then some (b - 65 + 10)
  else none

/-- One 16-bit group of the IPv6 scanner: one to four hex digits. -/
def v6Group (s : GoStr) : Option (Nat × GoStr) :=
  let digits := s.takeWhile (fun b => (hexVal b).isSome)
  if digits = [] then none
  else if digits.length > 4 then none
  else some (digits.foldl (fun acc b => acc * 16 + (hexVal b).getD 0) 0,
             s.dropWhile (fun b => (hexVal b).isSome))

/-- The netip parseIPv6 main loop over colon-separated groups, a possible
"::" ellipsis and a possible embedded trailing IPv4. Accumulates address
bytes; fuel bounds the recursion (each turn consumes input, fuel length+1
suffices, and running out of input is handled inside). -/
def v6Loop (fuel : Nat) (s : GoStr) (bytes : List Nat) (ellipsis : Option Nat) :
    Option (List Nat × Option Nat) :=
  match fuel with
  | 0 => none
  | fuel + 1 =>
    if bytes.length ≥ 16 then
      if s = [] then some (bytes, ellipsis) else none
    else
      match v6Group s with
      | none => none
      | some (acc, rest) =>
        if rest.head? = some 46 then
          if ellipsis = none ∧ bytes.length ≠ 12 then none
          else if bytes.length + 4 > 16 then none
          else
            match v4Loop s 0 0 [] with
            | some [f0, f1, f2, f3] => some (bytes ++ [f0, f1, f2, f3], ellipsis)
            | _ => none
        else
          let bytes2 := bytes ++ [acc / 256, acc % 256]
          match rest with
          | [] => some (bytes2, ellipsis)
          | 58 :: rest2 =>
            if rest2 = [] then none
            else
              match rest2 with
              | 58 :: rest3 =>
                if ellipsis.isSome then none
                else if rest3 = [] then some (bytes2, some bytes2.length)
                else v6Loop fuel rest3 bytes2 (some bytes2.length)
              | _ => v6Loop fuel rest2 bytes2 ellipsis
          | _ => none

/-- Big-endian bytes to a natural number. -/
def bytesToNat (bs : List Nat) : Nat := bs.foldl (fun acc b => acc * 256 + b) 0

/-- netip parseIPv6: split the zone at '%' (an empty zone is an error),
handle a leading "::", run the group loop, and expand the ellipsis with
zeros. -/
def parseV6 (s0 : GoStr) : Option Addr :=
  let hasZone := 37 ∈ s0
  let s := s0.takeWhile (fun b => !(b == 37))
  let zone := (s0.dropWhile (fun b => !(b == 37))).tail
  if hasZone ∧ zone = [] then none
  else
    let startEll := s.take 2 = [58, 58]
    if startEll ∧ s.drop 2 = [] then some ⟨128, 0, zone⟩
    else
      let s1 := if startEll then s.drop 2 else s
      let ell0 : Option Nat := if startEll then some 0 else none
      match v6Loop (s1.length + 1) s1 [] ell0 with
      | none => none
      | some (bytes, ell) =>
        if bytes.length < 16 then
          match ell with
          | none => none
          | some e =>
            some ⟨128, bytesToNat (bytes.take e ++
              List.replicate (16 - bytes.length) 0 ++ bytes.drop e), zone⟩
        else if ell.isSome then none
        else some ⟨128, bytesToNat bytes, zone⟩

/-- netip.ParseAddr: dispatch on the first '.', ':' or '%'. -/
def netipParseAddr (s : GoStr) : Option Addr :=
  match s.find? (fun b => b == 46 || b == 58 || b == 37) with
  | some 46 => parseV4 s
  | some 58 => parseV6 s
  | _ => none

/-- netip splitAddrPort: split at the last colon; '[' ']' brackets around the
address mark IPv6 and are removed. -/
def splitAddrPort (s : GoStr) : Option (GoStr × GoStr × Bool) :=
  match s.reverse.findIdx? (fun b => b == 58) with
  | none => none
  | some ridx =>
    let i := s.length - 1 - ridx
    let ip := s.take i
    let port := s.drop (i + 1)
    if ip = [] then none
    else if port = [] then none
    else if ip.head? = some 91 then
      if ip.length < 2 ∨ ip.getLast? ≠ some 93 then none
      else some ((ip.drop 1).dropLast, port, true)
    else some (ip, port, false)

/-- netip.ParseAddrPort: split, parse the port, parse the address, and
require brackets exactly for IPv6 addresses. -/
def netipParseAddrPort (s : GoStr) : Option AddrPort :=
  match splitAddrPort s with
  | none => none
  | some (ip, port, v6) =>
    match parsePort port with
    | none => none
    | some p =>
      match netipParseAddr ip with
      | none => none
      | some a =>
        if v6 ∧ a.bitLen = 32 then none
        else if ¬v6 ∧ a.bitLen = 128 then none
        else some ⟨a, p⟩

/-! ### rdv wire helpers: addr lists, commands, meta -/

/-- maxAddrs = 10. -/
def maxAddrs : Nat := 10

/-- Go unicode whitespace, ASCII fragment, for strings.TrimSpace. -/
def isWsB (b : Nat) : Bool :=
  b == 32 || b == 9 || b == 10 || b == 11 || b == 12 || b == 13

/-- strings.TrimSpace. -/
def trimSpaceB (s : GoStr) : GoStr :=
  ((s.dropWhile isWsB).reverse.dropWhile isWsB).reverse

/-- strings.Split(s, ","): split at every comma, keeping empty parts. -/
def splitOnComma : GoStr → List GoStr
  | [] => [[]]
  | 44 :: rest => [] :: splitOnComma rest
  | b :: rest =>
    match splitOnComma rest with
    | [] => [[b]]
    | p :: ps => (b :: p) :: ps

/-- parseAddrPorts: the empty header value is a nil list; otherwise split on
commas, trim each part and parse each as ip:port, failing on any bad part. -/
def parseAddrPorts (s : GoStr) : Option (List AddrPort) :=
  if s = [] then some []
  else (splitOnComma s).mapM (fun part => netipParseAddrPort (trimSpaceB part))

/-- Outcome of readCmdContinue: nil (CONTINUE), ErrOther carrying the parsed
address, the wrapped ErrProtocol, a raw Sscanf error, or an i/o error from
readLine. -/
inductive CmdRes
  | ok
  | errOther (addr : AddrPort)
  | errProto
  | errScan
  | errRead
deriving DecidableEq

/-- The body of readCmdContinue after the line read: scan "%v %s\n"; return
nil whenever cmd is CONTINUE (the code checks cmd before the scan error);
then propagate a scan error as-is; then ErrOther for OTHER, discarding
the address parse error (a bad argument leaves the zero AddrPort); else the
wrapped ErrProtocol "invalid command". -/
def readCmdLine (line : GoStr) : CmdRes :=
  let r := sscanf2 line
  if r.1 = CONTINUEb then .ok
  else if r.2.2 = false then .errScan
  else if r.1 = OTHERb then .errOther ((netipParseAddrPort r.2.1).getD zeroAddrPort)
  else .errProto

/-- readCmdContinue: read one LF-terminated line through the bounded buffered
reader (an error there is returned directly), then interpret the command. -/
def readCmdContinue (bufSize : Nat) (s : GoStr) : CmdRes :=
  match bufReadLine bufSize s with
  | none => .errRead
  | some (line, _) => readCmdLine line

/-- Metadata of the rdv handshake (struct Meta). -/
structure Meta where
  method : GoStr
  token : GoStr
  selfAddrs : List AddrPort
  observedAddr : Option AddrPort
  peerAddrs : List AddrPort
deriving DecidableEq

/-- The two error returns of newMeta. -/
inductive MetaErr
  | missingToken
  | unknownMethod
deriving DecidableEq

/-- newMeta: reject an empty token, then any method other than DIAL or
ACCEPT. -/
def newMeta (method token : GoStr) : Except MetaErr Meta :=
  if token = [] then .error .missingToken
  else if ¬(method = DIALb ∨ method = ACCEPTb) then .error .unknownMethod
  else .ok ⟨method, token, [], none, []⟩

/-- Meta.selfAndObservedAddrs: the self-reported addrs with the observed addr
appended when present, sorted with slices.SortFunc(netip.AddrPort.Compare)
and deduplicated with slices.Compact. -/
def selfAndObservedAddrs (m : Meta) : List AddrPort :=
  goCompact (goSortAddrPorts (m.selfAddrs ++ m.observedAddr.toList))

/-! ### rdv http upgrade parsing -/

/-- The parts of an incoming rdv http request that parseRdvRequest reads:
method, proto, the decoded URL path, the Connection / Upgrade /
Rdv-Self-Addrs header values, plus the observed addr the server attaches
after upgrading (ObservedAddrFunc result; none when it failed). -/
structure HttpReq where
  method : GoStr
  proto : GoStr
  urlPath : GoStr
  connectionHdr : GoStr
  upgradeHdr : GoStr
  selfAddrsHdr : GoStr
  remoteObserved : Option AddrPort
deriving DecidableEq

/-- The distinct error returns of parseRdvRequest. All but the meta and addr
errors are wrapped errUpgrade (answered 426; the others 400). -/
inductive ReqErr
  | upgrade
  | badMeta (e : MetaErr)
  | badAddrs
  | tooManySelfAddrs
deriving DecidableEq

/-- ASCII strings.ToLower. -/
def asciiLower (s : GoStr) : GoStr :=
  s.map (fun b => if 65 ≤ b ∧ b ≤ 90 then b + 32 else b)

/-- "upgrade" as bytes. -/
def httpUpgradeB : GoStr := [117, 112, 103, 114, 97, 100, 101]

/-- "http/1.1" as bytes. -/
def http11B : GoStr := [104, 116, 116, 112, 47, 49, 46, 49]

/-- checkUpgradeHeaders: Connection must lower to "upgrade"; Upgrade must be
non-empty after lowering and trimming, and equal to the protocol name. -/
def checkUpgradeHeaders (connHdr upgHdr : GoStr) : Bool :=
  decide (asciiLower connHdr = httpUpgradeB) &&
  decide (trimSpaceB (asciiLower upgHdr) ≠ []) &&
  decide (trimSpaceB (asciiLower upgHdr) = protocolName)

/-- strings.CutPrefix(path, "/"): strip one leading slash when present. -/
def cutSlash : GoStr → GoStr
  | 47 :: rest => rest
  | s => s

/-- parseRdvRequest: check the upgrade headers, then the http version, then
newMeta on (method, token from the path), then parse the self addr list and
reject more than maxAddrs - 1 = 9 entries. -/
def parseRdvRequest (r : HttpReq) : Except ReqErr Meta :=
  if ¬ checkUpgradeHeaders r.connectionHdr r.upgradeHdr then .error .upgrade
  else if asciiLower r.proto ≠ http11B then .error .upgrade
  else
    match newMeta r.method (cutSlash r.urlPath) with
    | .error e => .error (.badMeta e)
    | .ok m =>
      match parseAddrPorts r.selfAddrsHdr with
      | none => .error .badAddrs
      | some sa =>
        if sa.length > maxAddrs - 1 then .error .tooManySelfAddrs
        else .ok { m with selfAddrs := sa }

/-- The parts of the rdv upgrade response that parseRdvResponse reads. -/
structure HttpResp where
  statusCode : Nat
  connectionHdr : GoStr
  upgradeHdr : GoStr
  peerAddrsHdr : GoStr
  observedAddrHdr : GoStr
deriving DecidableEq

/-- The distinct error returns of parseRdvResponse. -/
inductive RespErr
  | badStatus
  | upgrade
  | badPeerAddrs
  | tooManyPeerAddrs
  | badObservedAddr
deriving DecidableEq

/-- Every parseRdvResponse error except the status check is wrapped in
ErrBadHandshake. -/
def respErrIsBadHandshake : RespErr → Bool
  | .badStatus => false
  | _ => true

/-- parseRdvResponse: require status 101, check the upgrade headers, parse
the peer addr list and reject more than maxAddrs = 10 entries, then parse the
observed addr header when present. -/
def parseRdvResponse (m : Meta) (r : HttpResp) : Except RespErr Meta :=
  if r.statusCode ≠ 101 then .error .badStatus
  else if ¬ checkUpgradeHeaders r.connectionHdr r.upgradeHdr then .error .upgrade
  else
    match parseAddrPorts r.peerAddrsHdr with
    | none => .error .badPeerAddrs
    | some pa =>
      if pa.length > maxAddrs then .error .tooManyPeerAddrs
      else if r.observedAddrHdr ≠ [] then
        match netipParseAddrPort r.observedAddrHdr with
        | none => .error .badObservedAddr
        | some oa => .ok { m with peerAddrs := pa, observedAddr := some oa }
      else .ok { m with peerAddrs := pa }

/-! ### server lobby reconciliation -/

/-- Events the reconciliation loop consumes: an upgraded arrival (its raw
request; Server.Upgrade validates it) from connCh, or a watchdog-completion
token from monCh. -/
inductive SrvEv
  | req (r : HttpReq)
  | mon (token : GoStr)
deriving DecidableEq

/-- Externally visible outcomes of one loop turn: a dispatched pair handed to
the handler, an http error written to a conn (409 replace / 408 kick-out), a
silent join, an upgrade rejection, or a kick-out of an absent token (the
source would dereference nil there; see the spec's open question). -/
inductive SrvOut
  | dispatched (dc ac : Meta)
  | httpErr (c : Meta) (status : Nat) (reason : String)
  | joined (c : Meta)
  | rejected (e : ReqErr)
  | monMiss (token : GoStr)
deriving DecidableEq

/-- The idle lobby: Go map from token to conn, as an association list. -/
abbrev IdleMap := List (GoStr × Meta)

/-- Map lookup. -/
def lookupTok : IdleMap → GoStr → Option Meta
  | [], _ => none
  | (t, c) :: rest, tok => if t = tok then some c else lookupTok rest tok

/-- Map deletion. -/
def eraseTok : IdleMap → GoStr → IdleMap
  | [], _ => []
  | (t, c) :: rest, tok =>
    if t = tok then eraseTok rest tok else (t, c) :: eraseTok rest tok

/-- Map assignment m[token] = conn. -/
def insertTok (m : IdleMap) (tok : GoStr) (c : Meta) : IdleMap :=
  eraseTok m tok ++ [(tok, c)]

/-- One turn of the server's serial reconciliation loop (Server.serve).
A mon token kicks its conn out with 408 (interruptAndGetIdle / kickOut both
remove the entry). An arrival is what Server.Upgrade enqueued: it passed
parseRdvRequest and carries the observed addr (addObservedAddr). When an
idle conn of the same token has the opposite method, the pair (normalized by
the swap so dc is the DIAL side) is dispatched with PeerAddrs
cross-populated from the other side's selfAndObservedAddrs; a same-method
duplicate evicts the older conn with 409 and takes its place; otherwise the
arrival joins the lobby. Watchdog timing (deadlines, monCh draining during a
match) does not change the idle-map contents and is abstracted into the
event order. -/
def serveStep (idle : IdleMap) : SrvEv → IdleMap × List SrvOut
  | .mon tok =>
    match lookupTok idle tok with
    | none => (eraseTok idle tok, [.monMiss tok])
    | some c => (eraseTok idle tok, [.httpErr c 408 "no matching peer found"])
  | .req r =>
    match parseRdvRequest r with
    | .error e => (idle, [.rejected e])
    | .ok m0 =>
      let conn : Meta := { m0 with observedAddr := r.remoteObserved }
      match lookupTok idle conn.token with
      | some idleConn =>
        if idleConn.method ≠ conn.method then
          let dc0 := if conn.method = DIALb then conn else idleConn
          let ac0 := if conn.method = DIALb then idleConn else conn
          (eraseTok idle conn.token,
            [.dispatched { dc0 with peerAddrs := selfAndObservedAddrs ac0 }
                         { ac0 with peerAddrs := selfAndObservedAddrs dc0 }])
        else
          (insertTok idle conn.token conn,
            [.httpErr idleConn 409 "replaced by another conn"])
      | none => (insertTok idle conn.token conn, [.joined conn])

/-- The reconciliation loop over a sequence of events from the empty lobby,
collecting every output. -/
def serverRun (evs : List SrvEv) : IdleMap × List SrvOut :=
  evs.foldl (fun st ev =>
    let r := serveStep st.1 ev
    (r.1, st.2 ++ r.2)) ([], [])

/-! ### address spaces, probing and dial targets -/

/-- AddrSpace constants (bits of a uint32). -/
def SpaceInvalid : Nat := 0

/-- public4 bit. -/
def SpacePublic4 : Nat := 2

/-- public6 bit. -/
def SpacePublic6 : Nat := 4

/-- private4 bit. -/
def SpacePrivate4 : Nat := 8

/-- private6 bit. -/
def SpacePrivate6 : Nat := 16

/-- link4 bit. -/
def SpaceLink4 : Nat := 32

/-- link6 bit. -/
def SpaceLink6 : Nat := 64

/-- loopback4 bit. -/
def SpaceLoopback4 : Nat := 128

/-- loopback6 bit. -/
def SpaceLoopback6 : Nat := 256

/-- NoSpaces = 1 << 31: the set that forces a relay conn. -/
def NoSpaces : Nat := 2147483648

/-- PublicSpaces. -/
def PublicSpaces : Nat := SpacePublic4 ||| SpacePublic6

/-- DefaultSpaces. -/
def DefaultSpaces : Nat := SpacePublic4 ||| SpacePublic6 ||| SpacePrivate4 ||| SpacePrivate6

/-- AllSpaces = ^NoSpaces as a uint32 (all bits but bit 31). -/
def AllSpaces : Nat := 2147483647

/-- The eight enumerated unicast spaces. -/
def enumeratedSpaces : List Nat :=
  [SpacePublic4, SpacePublic6, SpacePrivate4, SpacePrivate6,
   SpaceLink4, SpaceLink6, SpaceLoopback4, SpaceLoopback6]

/-- AddrSpace.Includes: space & s != 0. -/
def includes (s space : Nat) : Bool := decide ((space &&& s) ≠ 0)

/-- Addr.Is4 (z4 representation, bit length 32). -/
def addrIs4 (a : Addr) : Bool := a.bitLen == 32

/-- Addr.Is6 (bit length 128, including 4-in-6 forms). -/
def addrIs6 (a : Addr) : Bool := a.bitLen == 128

/-- Addr.Is4In6: an IPv6 value with the ::ffff:0:0/96 prefix. -/
def addrIs4In6 (a : Addr) : Bool := addrIs6 a && a.value / 4294967296 == 65535

/-- Addr.Unmap. -/
def addrUnmap (a : Addr) : Addr :=
  if addrIs4In6 a then ⟨32, a.value % 4294967296, a.zone⟩ else a

/-- First octet of an IPv4 value. -/
def v4FirstByte (a : Addr) : Nat := a.value / 16777216 % 256

/-- Second octet of an IPv4 value. -/
def v4SecondByte (a : Addr) : Nat := a.value / 65536 % 256

/-- First octet of an IPv6 value. -/
def v6FirstByte (a : Addr) : Nat :=
  a.value / 1329227995784915872903807060280344576 % 256

/-- Addr.IsValid. -/
def addrIsValid (a : Addr) : Bool := a.bitLen != 0

/-- Addr.IsUnspecified: 0.0.0.0 or :: (zone-free). -/
def addrIsUnspecified (a : Addr) : Bool :=
  (addrIs4 a && a.value == 0) || (addrIs6 a && a.value == 0 && a.zone.isEmpty)

/-- Addr.IsLoopback: 127.0.0.0/8 or exactly ::1. -/
def addrIsLoopback (a : Addr) : Bool :=
  let u := addrUnmap a
  if addrIs4 u then v4FirstByte u == 127
  else if addrIs6 u then u.value == 1 && u.zone.isEmpty
  else false

/-- Addr.IsMulticast: 224.0.0.0/4 or ff00::/8. -/
def addrIsMulticast (a : Addr) : Bool :=
  let u := addrUnmap a
  if addrIs4 u then v4FirstByte u / 16 == 14
  else if addrIs6 u then v6FirstByte u == 255
  else false

/-- Addr.IsLinkLocalUnicast: 169.254.0.0/16 or fe80::/10. -/
def addrIsLinkLocalUnicast (a : Addr) : Bool :=
  let u := addrUnmap a
  if addrIs4 u then v4FirstByte u == 169 && v4SecondByte u == 254
  else if addrIs6 u then
    u.value / 332306998946228968225951765070086144 == 1018
  else false

/-- Addr.IsPrivate: RFC 1918 ranges or fc00::/7. -/
def addrIsPrivate (a : Addr) : Bool :=
  let u := addrUnmap a
  if addrIs4 u then
    v4FirstByte u == 10 ||
    (v4FirstByte u == 172 && v4SecondByte u / 16 == 1) ||
    (v4FirstByte u == 192 && v4SecondByte u == 168)
  else if addrIs6 u then
    u.value / 2658455991569831745807614120560689152 == 126
  else false

/-- Addr.IsGlobalUnicast. -/
def addrIsGlobalUnicast (a : Addr) : Bool :=
  if !addrIsValid a then false
  else
    let u := addrUnmap a
    if addrIs4 u && (u.value == 0 || u.value == 4294967295) then false
    else
      !(addrIs6 u && u.value == 0 && u.zone.isEmpty) &&
      !addrIsLoopback u && !addrIsMulticast u && !addrIsLinkLocalUnicast u

/-- AddrSpaceFrom: classify an address into its rdv address space. -/
def AddrSpaceFrom (ip : Addr) : Nat :=
  if !addrIsValid ip || addrIsUnspecified ip || addrIsMulticast ip then SpaceInvalid
  else if addrIsLoopback ip then (if addrIs4 ip then SpaceLoopback4 else SpaceLoopback6)
  else if addrIsLinkLocalUnicast ip then (if addrIs4 ip then SpaceLink4 else SpaceLink6)
  else if addrIsPrivate ip then (if addrIs4 ip then SpacePrivate4 else SpacePrivate6)
  else if addrIsGlobalUnicast ip then (if addrIs4 ip then SpacePublic4 else SpacePublic6)
  else SpaceInvalid

/-- AddrSpace.IncludesAddr. -/
def includesAddr (s : Nat) (a : Addr) : Bool := includes s (AddrSpaceFrom a)

/-- The udpProbeAddrs table: one probe destination per space. -/
def udpProbeAddrs : List (Nat × Addr) :=
  [ (SpaceLoopback4, ⟨32, 2130706433, []⟩),
    (SpaceLink4, ⟨32, 2851995649, []⟩),
    (SpacePrivate4, ⟨32, 3232235521, []⟩),
    (SpacePublic4, ⟨32, 16843009, []⟩),
    (SpaceLoopback6, ⟨128, 1, []⟩),
    (SpaceLink6, ⟨128, 65152 * 5192296858534827628530496329220096 + 1, []⟩),
    (SpacePrivate6, ⟨128, 64768 * 5192296858534827628530496329220096 + 1, []⟩),
    (SpacePublic6, ⟨128, 9216 * 5192296858534827628530496329220096 + 1, []⟩) ]

/-- probeLocalAddrs: for each probe-table space included in the configured
set, record the OS-chosen local source addr. The OS routing decision is the
oracle argument; a probe error is ignored and records the zero Addr, exactly
as the code drops the error. -/
def probeLocalAddrs (spaces : Nat) (probe : Addr → Addr) : List (Nat × Addr) :=
  udpProbeAddrs.filterMap (fun e =>
    if includes spaces e.1 then some (e.1, probe e.2) else none)

/-- Lookup in the probed local-addr map. -/
def lookupSpace : List (Nat × Addr) → Nat → Option Addr
  | [], _ => none
  | (sp, a) :: rest, s => if sp = s then some a else lookupSpace rest s

/-- selfAddrs: probed local addrs, zone-stripped, filtered by the configured
spaces, paired with the reuseport port, sorted and deduplicated. -/
def selfAddrs (laddrMap : List (Nat × Addr)) (port : Nat) (spaces : Nat) : List AddrPort :=
  goCompact (goSortAddrPorts (laddrMap.filterMap (fun e =>
    let a : Addr := { e.2 with zone := [] }
    if includesAddr spaces a then some ⟨a, port⟩ else none)))

/-- The peer addrs dialAndListen actually dials: those whose space has an
entry in the local probe map; the rest are skipped. -/
def dialTargets (laddrs : List (Nat × Addr)) (peerAddrs : List AddrPort) : List AddrPort :=
  peerAddrs.filter (fun ap => (lookupSpace laddrs (AddrSpaceFrom ap.addr)).isSome)

/-! ### picker and client preflight -/

/-- A candidate conn as the picker sees it: the relay flag decides the
quality order; id stands for the underlying socket identity. -/
structure CConn where
  isRelay : Bool
  id : Nat
deriving DecidableEq

/-- byQuality: relays sort last. -/
def byQuality (a b : CConn) : Int :=
  if a.isRelay then 1 else if b.isRelay then -1 else 0

/-- The strict "less" the sort consults: byQuality a b < 0. -/
def qLess (a b : CConn) : Bool := byQuality a b < 0

/-- Stable insertion: place x after every y with less y x. -/
def stableInsert (less : CConn → CConn → Bool) (x : CConn) : List CConn → List CConn
  | [] => [x]
  | y :: ys => if less y x then y :: stableInsert less x ys else x :: y :: ys

/-- slices.SortStableFunc, as a stable insertion sort. byQuality induces a
strict weak order keyed on IsRelay, and every stable sort of a list under a
strict weak order yields the same output. -/
def goSortStable (less : CConn → CConn → Bool) : List CConn → List CConn
  | [] => []
  | x :: xs => stableInsert less x (goSortStable less xs)

/-- connPicker: a timeout and the completion hook. -/
structure ConnPickerCfg where
  timeout : Int
  foundFn : CConn → Bool

/-- PickFirst(): complete as soon as any conn is available. -/
def PickFirst : ConnPickerCfg := ⟨0, fun _ => true⟩

/-- WaitForP2P(timeout): complete on the first non-relay conn or at the
timeout. -/
def WaitForP2P (timeout : Int) : ConnPickerCfg := ⟨timeout, fun nc => !nc.isRelay⟩

/-- WaitConstant(timeout): always wait out the timeout. -/
def WaitConstant (timeout : Int) : ConnPickerCfg := ⟨timeout, fun _ => false⟩

/-- connPicker.Pick over the candidates delivered before the channel closed:
collect them in arrival order, then slices.SortStableFunc(conns, byQuality).
The timeout and foundFn only fire the cancel callback, which decides upstream
when the channel closes; they do not reorder a given delivered sequence. -/
def connPickerPick (_ : ConnPickerCfg) (delivered : List CConn) : List CConn :=
  goSortStable qLess delivered

/-- time.Second in nanoseconds. -/
def oneSecondNs : Int := 1000000000

/-- The picker Client.Do actually uses: cmp.Or(c.Picker, WaitForP2P(1s)),
overridden with PickFirst() whenever the method is ACCEPT. -/
def effectivePicker (configured : Option ConnPickerCfg) (method : GoStr) : ConnPickerCfg :=
  let picker := configured.getD (WaitForP2P oneSecondNs)
  if method = ACCEPTb then PickFirst else picker

/-- Client.Do preflight: newMeta validates method and token before any socket
or network work; everything after (socket, probe, server dial, race, picker)
is the continuation, entered only with a valid Meta. The triple is
(conn, http response, error). -/
def clientDoPre (rest : Meta → Option CConn × Option HttpResp × Option MetaErr)
    (method token : GoStr) : Option CConn × Option HttpResp × Option MetaErr :=
  match newMeta method token with
  | .error e => (none, none, some e)
  | .ok m => rest m

/-! ### auxiliary predicates and concrete inputs -/

/-- A valid rdv method (what newMeta admits). -/
def validMethod (m : Meta) : Prop := m.method = DIALb ∨ m.method = ACCEPTb

/-- Every lobby entry has a valid method. -/
def idleValid (idle : IdleMap) : Prop := ∀ p ∈ idle, validMethod p.2

/-- The lobby map has unique tokens. -/
def uniqKeys (m : IdleMap) : Prop := (m.map Prod.fst).Nodup

/-- The command of a line: its first space-delimited token. -/
def lineCmd (line : GoStr) : GoStr := (line.dropWhile isSpaceB).takeWhile isTokB

/-- The argument of a line: its second space-delimited token. -/
def lineArg (line : GoStr) : GoStr :=
  let rest := (line.dropWhile isSpaceB).dropWhile isTokB
  (rest.dropWhile isSpaceB).takeWhile isTokB

/-- The line scans as "<cmd> <arg>\n": two non-empty tokens, then optional
spaces and a newline or the end of the line. -/
def lineScans2 (line : GoStr) : Bool :=
  decide (lineCmd line ≠ []) && decide (lineArg line ≠ []) &&
    scanEol ((((line.dropWhile isSpaceB).dropWhile isTokB).dropWhile isSpaceB).dropWhile isTokB)

/-- "HTTP/1.1" as bytes. -/
def protoHttpB : GoStr := [72, 84, 84, 80, 47, 49, 46, 49]

/-- 10.0.0.2:7 (an observed addr for witnesses). -/
def apO : AddrPort := ⟨⟨32, 167772162, []⟩, 7⟩

/-- 10.0.0.3:8. -/
def apP : AddrPort := ⟨⟨32, 167772163, []⟩, 8⟩

/-- 10.0.0.1:9. -/
def apA : AddrPort := ⟨⟨32, 167772161, []⟩, 9⟩

/-- 10.0.0.2:9. -/
def apB : AddrPort := ⟨⟨32, 167772162, []⟩, 9⟩

/-- A dial conn meta with token "z" and no addrs. -/
def dialMetaW : Meta := ⟨DIALb, [122], [], none, []⟩

/-- An accept conn meta with token "z" and an observed addr. -/
def acceptMetaW : Meta := ⟨ACCEPTb, [122], [], some apO, []⟩

/-- A well-formed DIAL upgrade request for token "z" with no self addrs. -/
def reqDialW : HttpReq := ⟨DIALb, protoHttpB, [47, 122], httpUpgradeB, protocolName, [], none⟩

/-- A well-formed ACCEPT upgrade request for token "z". -/
def reqAcceptW : HttpReq :=
  ⟨ACCEPTb, protoHttpB, [47, 122], httpUpgradeB, protocolName, [], some apO⟩

/-- Dial then accept on the same token. -/
def evsW2 : List SrvEv := [.req reqDialW, .req reqAcceptW]

/-- The dial side of the pair the run above dispatches. -/
def dcW2 : Meta := { dialMetaW with peerAddrs := selfAndObservedAddrs acceptMetaW }

/-- The accept side of the pair the run above dispatches. -/
def acW2 : Meta := { acceptMetaW with peerAddrs := selfAndObservedAddrs dialMetaW }

/-- A second DIAL request for token "z" with an observed addr. -/
def reqDial2W : HttpReq :=
  ⟨DIALb, protoHttpB, [47, 122], httpUpgradeB, protocolName, [], some apP⟩

/-- A lobby already holding a dial conn for token "z". -/
def idleW3 : IdleMap := [([122], dialMetaW)]

/-- The conn that second DIAL request upgrades to. -/
def conn2W : Meta := ⟨DIALb, [122], [], some apP, []⟩

/-- An idle accept conn for token "t" with unsorted duplicate-prone addrs. -/
def oldW4 : Meta := ⟨ACCEPTb, [116], [apB, apA], some apO, []⟩

/-- A lobby holding it. -/
def idleW4 : IdleMap := [([116], oldW4)]

/-- "10.0.0.2:9,10.0.0.1:9" as bytes. -/
def selfHdrW4 : GoStr :=
  [49, 48, 46, 48, 46, 48, 46, 50, 58, 57, 44, 49, 48, 46, 48, 46, 48, 46, 49, 58, 57]

/-- A DIAL request for token "t" carrying those self addrs. -/
def reqW4 : HttpReq :=
  ⟨DIALb, protoHttpB, [47, 116], httpUpgradeB, protocolName, selfHdrW4, some apP⟩

/-- The arriving dial conn that request upgrades to. -/
def connW4 : Meta := ⟨DIALb, [116], [apB, apA], some apP, []⟩

/-- The dispatched dial side. -/
def dcW4 : Meta := { connW4 with peerAddrs := selfAndObservedAddrs oldW4 }

/-- The dispatched accept side. -/
def acW4 : Meta := { oldW4 with peerAddrs := selfAndObservedAddrs connW4 }

/-- A relay candidate. -/
def relayW : CConn := ⟨true, 0⟩

/-- A direct candidate. -/
def directW : CConn := ⟨false, 1⟩

/-- "10.0.0.1:1" as bytes. -/
def addr1B : GoStr := [49, 48, 46, 48, 46, 48, 46, 49, 58, 49]

/-- Its parse. -/
def ap1W : AddrPort := ⟨⟨32, 167772161, []⟩, 1⟩

/-- Ten copies of "10.0.0.1:1", comma-separated. -/
def selfHdr10 : GoStr := List.intercalate [44] (List.replicate 10 addr1B)

/-- Eleven copies, comma-separated. -/
def peerHdr11 : GoStr := List.intercalate [44] (List.replicate 11 addr1B)

/-- A DIAL request whose self-addr list has ten entries. -/
def reqCap10W : HttpReq :=
  ⟨DIALb, protoHttpB, [47, 122], httpUpgradeB, protocolName, selfHdr10, none⟩

/-- A DIAL request whose self-addr list has one entry. -/
def reqCap1W : HttpReq :=
  ⟨DIALb, protoHttpB, [47, 122], httpUpgradeB, protocolName, addr1B, none⟩

/-- A well-formed 101 response with one peer addr. -/
def respW : HttpResp := ⟨101, httpUpgradeB, protocolName, addr1B, []⟩

/-- A 101 response whose peer-addr list has eleven entries. -/
def respBadW : HttpResp := ⟨101, httpUpgradeB, protocolName, peerHdr11, []⟩

/-- The stream "OTHER\n": an argument-less OTHER command. -/
def otherLineW : GoStr := OTHERb ++ [10]

/-- The stream "OTHER 1.2.3.4:5\n". -/
def otherArgStreamW : GoStr :=
  OTHERb ++ 32 :: [49, 46, 50, 46, 51, 46, 52, 58, 53] ++ [10]

/-- 1.2.3.4:5. -/
def ap1234W : AddrPort := ⟨⟨32, 16909060, []⟩, 5⟩

/-- A continuation for Client.Do that performs no work. -/
def restW : Meta → Option CConn × Option HttpResp × Option MetaErr :=
  fun _ => (none, none, none)

/-- "GET" as bytes: not an rdv method. -/
def getB : GoStr := [71, 69, 84]

/-- An upgrade-shaped request with method GET. -/
def reqBadW : HttpReq := ⟨getB, protoHttpB, [47, 122], httpUpgradeB, protocolName, [], none⟩

/-- A probe oracle for witnesses. -/
def probeIdW : Addr → Addr := fun a => a

/-! ### Lemmas: token scanning and path escaping -/

theorem takeWhile_app {p : Nat → Bool} (xs : GoStr) (y : Nat) (ys : GoStr)
    (hx : ∀ b ∈ xs, p b = true) (hy : p y = false) :
    (xs ++ y :: ys).takeWhile p = xs := by
  induction xs with
  | nil => simp [List.takeWhile_cons, hy]
  | cons a l ih =>
    have ha : p a = true := hx a (by simp)
    simp [List.takeWhile_cons, ha, ih (fun b hb => hx b (by simp [hb]))]

theorem dropWhile_app {p : Nat → Bool} (xs : GoStr) (y : Nat) (ys : GoStr)
    (hx : ∀ b ∈ xs, p b = true) (hy : p y = false) :
    (xs ++ y :: ys).dropWhile p = y :: ys := by
  induction xs with
  | nil => simp [List.dropWhile_cons, hy]
  | cons a l ih =>
    have ha : p a = true := hx a (by simp)
    simp [List.dropWhile_cons, ha, ih (fun b hb => hx b (by simp [hb]))]

theorem isTokB_not_space {b : Nat} (h : isTokB b = true) : isSpaceB b = false := by
  simp [isTokB] at h
  exact h.1

theorem isTokB_ne_nl {b : Nat} (h : isTokB b = true) : b ≠ 10 := by
  simp [isTokB, isNlB] at h
  exact h.2

theorem scanTok_pre (tok : GoStr) (sep : Nat) (rest : GoStr)
    (h1 : tok ≠ []) (h2 : ∀ b ∈ tok, isTokB b = true) (h3 : isTokB sep = false) :
    scanTok (tok ++ sep :: rest) = some (tok, sep :: rest) := by
  obtain ⟨c, tok', rfl⟩ : ∃ c tok', tok = c :: tok' := by
    cases tok with
    | nil => exact absurd rfl h1
    | cons c tok' => exact ⟨c, tok', rfl⟩
  have hc : isTokB c = true := h2 c (by simp)
  have hdrop : (c :: tok' ++ sep :: rest).dropWhile isSpaceB = c :: tok' ++ sep :: rest := by
    simp [List.dropWhile_cons, isTokB_not_space hc]
  unfold scanTok
  rw [hdrop, takeWhile_app _ _ _ h2 h3, dropWhile_app _ _ _ h2 h3]
  simp

theorem scanTok_space (z : GoStr) : scanTok (32 :: z) = scanTok z := by
  unfold scanTok
  simp [List.dropWhile_cons, isSpaceB]

theorem hexDigitU_tokB (n : Nat) : isTokB (hexDigitU n) = true := by
  unfold hexDigitU
  split <;> simp [isTokB, isSpaceB, isNlB] <;> omega

theorem notEscaped_tokB (b : Nat) (h : shouldEscapeSeg b = false) : isTokB b = true := by
  have h36 : 36 ≤ b := by
    by_contra hcon
    push_neg at hcon
    interval_cases b <;> revert h <;> decide
  simp [isTokB, isSpaceB, isNlB]
  omega

theorem pathEscape_tokB (t : GoStr) : ∀ b ∈ pathEscape t, isTokB b = true := by
  induction t with
  | nil => simp [pathEscape]
  | cons c rest ih =>
    unfold pathEscape
    split
    · intro b hb
      simp only [List.mem_cons] at hb
      rcases hb with rfl | rfl | rfl | h
      · decide
      · exact hexDigitU_tokB _
      · exact hexDigitU_tokB _
      · exact ih b h
    · next hne =>
      intro b hb
      simp only [List.mem_cons] at hb
      rcases hb with rfl | h
      · exact notEscaped_tokB _ (by simpa using hne)
      · exact ih b h

theorem pathEscape_ne_nil {t : GoStr} (h : t ≠ []) : pathEscape t ≠ [] := by
  cases t with
  | nil => exact absurd rfl h
  | cons c rest =>
    unfold pathEscape
    split <;> simp

theorem ishex_hexDigitU (n : Nat) (h : n < 16) : ishexB (hexDigitU n) = true := by
  unfold hexDigitU ishexB
  split <;> simp <;> omega

theorem unhex_hexDigitU (n : Nat) (h : n < 16) : unhexB (hexDigitU n) = n := by
  unfold hexDigitU unhexB
  split
  · next h10 =>
    rw [if_pos (by simp; omega)]
    omega
  · next h10 =>
    rw [if_neg (by simp; omega), if_neg (by simp; omega), if_pos (by simp; omega)]
    omega

theorem pathUnescape_esc (h1 h2 : Nat) (rest : GoStr) (hh1 : ishexB h1 = true)
    (hh2 : ishexB h2 = true) :
    pathUnescape (37 :: h1 :: h2 :: rest) =
      (pathUnescape rest).map (fun t => (unhexB h1 * 16 + unhexB h2) :: t) := by
  conv_lhs => rw [pathUnescape.eq_def]
  simp [hh1, hh2]

theorem pathUnescape_lit (b : Nat) (rest : GoStr) (hb : b ≠ 37) :
    pathUnescape (b :: rest) = (pathUnescape rest).map (fun t => b :: t) := by
  conv_lhs => rw [pathUnescape.eq_def]
  simp [hb]

theorem pathUnescape_pathEscape (t : GoStr) (hb : ∀ b ∈ t, b < 256) :
    pathUnescape (pathEscape t) = some t := by
  induction t with
  | nil => simp [pathEscape, pathUnescape]
  | cons c rest ih =>
    have hc : c < 256 := hb c (by simp)
    have ihr := ih (fun b hbm => hb b (by simp [hbm]))
    have hd1 : c / 16 < 16 := by omega
    have hd2 : c % 16 < 16 := by omega
    unfold pathEscape
    split
    · next hesc =>
      rw [pathUnescape_esc _ _ _ (ishex_hexDigitU _ hd1) (ishex_hexDigitU _ hd2), ihr]
      rw [unhex_hexDigitU _ hd1, unhex_hexDigitU _ hd2]
      have : c / 16 * 16 + c % 16 = c := by omega
      rw [this]
      rfl
    · next hesc =>
      have hc37 : c ≠ 37 := by
        intro h
        subst h
        simp [show shouldEscapeSeg 37 = true from by decide] at hesc
      rw [pathUnescape_lit _ _ hc37, ihr]
      rfl

theorem bufReadLine_line (bufSize : Nat) (xs : GoStr)
    (hx : ∀ b ∈ xs, b ≠ 10) (hlen : xs.length + 1 ≤ bufSize) :
    bufReadLine bufSize (xs ++ [10]) = some (xs ++ [10], []) := by
  have hx' : ∀ b ∈ xs, (!(b == 10)) = true := by
    intro b hb; simpa using hx b hb
  unfold bufReadLine
  rw [List.take_of_length_le (by simp; omega)]
  rw [if_pos (by simp)]
  rw [takeWhile_app _ _ _ hx' (by simp), dropWhile_app _ _ _ hx' (by simp)]
  simp

/-! ### C1: header framing round-trip -/

theorem pathEscape_replicate_a (n : Nat) :
    pathEscape (List.replicate n 97) = List.replicate n 97 := by
  induction n with
  | zero => simp [pathEscape]
  | succ k ih =>
    simp [List.replicate_succ, pathEscape, show shouldEscapeSeg 97 = false from by decide, ih]

/-- The claim as frozen is false: readHeader reads its line through a bufio
reader whose buffer (4096 bytes at every call site in this code) bounds the
line length, so a long enough token breaks the round-trip. A token of 4096
'a' bytes makes the header line 4108 bytes long, ReadSlice fails with
ErrBufferFull, and readHeader returns an error rather than the header. -/
theorem c1_counterexample_general (n : Nat) (hn : goBufSize + 1 ≤ n) :
    readHeader goBufSize (writeHeader ⟨DIALb, List.replicate n 97⟩) = none := by
  have hshape : writeHeader ⟨DIALb, List.replicate n 97⟩ =
      (protocolName ++ 32 :: DIALb ++ [32]) ++ (List.replicate n 97 ++ [10]) := by
    unfold writeHeader
    rw [pathEscape_replicate_a]
    simp
  have hn' : 4097 ≤ n := hn
  have htake : (writeHeader ⟨DIALb, List.replicate n 97⟩).take goBufSize =
      (protocolName ++ 32 :: DIALb ++ [32]) ++ List.replicate 4085 97 := by
    rw [hshape, List.take_append_eq_append_take]
    have h1 : List.take goBufSize (protocolName ++ 32 :: DIALb ++ [32] : GoStr) =
        protocolName ++ 32 :: DIALb ++ [32] := List.take_of_length_le (by decide)
    have h2 : goBufSize - (protocolName ++ 32 :: DIALb ++ [32] : GoStr).length = 4085 := by
      decide
    have h3 : (4085 : Nat) ≤ (List.replicate n 97).length := by
      rw [List.length_replicate]
      omega
    rw [h1, h2, List.take_append_of_le_length h3, List.take_replicate]
    congr 2
    omega
  have hpn : ∀ x ∈ (protocolName ++ 32 :: DIALb ++ [32] : GoStr), x ≠ 10 := by decide
  have hmem : (10 : Nat) ∉ (writeHeader ⟨DIALb, List.replicate n 97⟩).take goBufSize := by
    rw [htake]
    intro hc
    rcases List.mem_append.mp hc with h | h
    · exact hpn 10 h rfl
    · have := List.eq_of_mem_replicate h
      omega
  unfold readHeader bufReadLine
  rw [if_neg hmem]

/-- The claim as frozen is false: readHeader reads its line through a bufio
reader whose buffer (4096 bytes at every call site in this code) bounds the
line length, so a long enough token breaks the round-trip. A token of 4097
'a' bytes makes the header line 4109 bytes long, ReadSlice fails with
ErrBufferFull, and readHeader returns an error rather than the header. -/
theorem c1_counterexample :
    readHeader goBufSize (writeHeader ⟨DIALb, List.replicate 4097 97⟩) = none ∧
      (⟨DIALb, List.replicate 4097 97⟩ : RdvHeader).token ≠ [] :=
  ⟨c1_counterexample_general 4097 (by decide), by
    intro h
    have hlen := congrArg List.length h
    rw [List.length_replicate, List.length_nil] at hlen
    exact absurd hlen (by decide)⟩

/-- C1 (amended): for every method in DIAL/ACCEPT and every non-empty byte
token — including '/', space, '%' and multi-byte UTF-8 — whose encoded header
line fits the bufio reader buffer, readHeader (writeHeader h) returns exactly
the original header; parse inverts format up to the reader's line-length
bound. -/
theorem c1_header_roundtrip (bufSize : Nat) (m t : GoStr)
    (hm : m = DIALb ∨ m = ACCEPTb) (ht : t ≠ []) (hb : ∀ b ∈ t, b < 256)
    (hlen : (writeHeader ⟨m, t⟩).length ≤ bufSize) :
    readHeader bufSize (writeHeader ⟨m, t⟩) = some ⟨m, t⟩ := by
  have hmtok : ∀ b ∈ m, isTokB b = true := by
    rcases hm with rfl | rfl <;> decide
  have hmne : m ≠ [] := by
    rcases hm with rfl | rfl <;> decide
  have hesc := pathEscape_tokB t
  have hescne := pathEscape_ne_nil ht
  have hwh : writeHeader ⟨m, t⟩ =
      protocolName ++ 32 :: (m ++ 32 :: (pathEscape t ++ [10])) := by
    unfold writeHeader
    simp
  have hno10 : ∀ b ∈ protocolName ++ 32 :: m ++ 32 :: pathEscape t, b ≠ 10 := by
    intro b hbm
    have hbm2 : b ∈ protocolName ∨ b = 32 ∨ b ∈ m ∨ b ∈ pathEscape t := by
      simp only [List.mem_append, List.mem_cons] at hbm
      tauto
    rcases hbm2 with h | rfl | h | h
    · exact (show ∀ x ∈ protocolName, x ≠ 10 from by decide) b h
    · omega
    · exact isTokB_ne_nl (hmtok b h)
    · exact isTokB_ne_nl (hesc b h)
  have hshape : writeHeader ⟨m, t⟩ = (protocolName ++ 32 :: m ++ 32 :: pathEscape t) ++ [10] := by
    unfold writeHeader
    simp
  have hline : bufReadLine bufSize (writeHeader ⟨m, t⟩) =
      some (writeHeader ⟨m, t⟩, []) := by
    rw [hshape]
    exact bufReadLine_line bufSize _ hno10 (by rw [hshape] at hlen; simpa using hlen)
  have hs1 : scanTok (protocolName ++ 32 :: (m ++ 32 :: (pathEscape t ++ [10]))) =
      some (protocolName, 32 :: (m ++ 32 :: (pathEscape t ++ [10]))) :=
    scanTok_pre protocolName 32 (m ++ 32 :: (pathEscape t ++ [10]))
      (by decide) (by decide) (by decide)
  have hs2 : scanTok (m ++ 32 :: (pathEscape t ++ [10])) =
      some (m, 32 :: (pathEscape t ++ [10])) :=
    scanTok_pre m 32 (pathEscape t ++ [10]) hmne hmtok (by decide)
  have hs3 : scanTok (pathEscape t ++ [10]) = some (pathEscape t, [10]) :=
    scanTok_pre (pathEscape t) 10 [] hescne hesc (by decide)
  have hscan : sscanf3 (writeHeader ⟨m, t⟩) = some (protocolName, m, pathEscape t) := by
    rw [hwh]
    unfold sscanf3
    simp only [hs1, scanTok_space, hs2, hs3,
      show scanEol [10] = true from by decide, if_true]
  have hparse : parseHeaderLine (writeHeader ⟨m, t⟩) = some ⟨m, t⟩ := by
    unfold parseHeaderLine
    simp only [hscan, pathUnescape_pathEscape t hb, ne_eq, not_true_eq_false, if_false]
  unfold readHeader
  simp only [hline]
  exact hparse

/-- Witness: the round-trip theorem applied to token "a/ %" ++ U+4F60. -/
theorem c1_header_roundtrip_witness :
    readHeader goBufSize (writeHeader ⟨DIALb, tok0⟩) = some ⟨DIALb, tok0⟩ :=
  c1_header_roundtrip goBufSize DIALb tok0 (Or.inl rfl) (by decide) (by decide) (by decide)

/-! ### Lemmas: the AddrPort comparator is a total antisymmetric preorder -/

theorem natCmp_eq_iff (a b : Nat) : natCmp a b = .eq ↔ a = b := by
  unfold natCmp
  split_ifs <;> simp <;> omega

theorem natCmp_lt_iff (a b : Nat) : natCmp a b = .lt ↔ a < b := by
  unfold natCmp
  split_ifs <;> simp <;> omega

theorem natCmp_gt_iff (a b : Nat) : natCmp a b = .gt ↔ b < a := by
  unfold natCmp
  split_ifs <;> simp <;> omega

theorem natCmp_swap (a b : Nat) : (natCmp a b).swap = natCmp b a := by
  unfold natCmp
  split_ifs <;> first | rfl | (exfalso; omega)

theorem then_eq_eq {o1 o2 : Ordering} : o1.then o2 = .eq ↔ o1 = .eq ∧ o2 = .eq := by
  cases o1 <;> simp [Ordering.then]

theorem then_eq_lt {o1 o2 : Ordering} : o1.then o2 = .lt ↔ o1 = .lt ∨ (o1 = .eq ∧ o2 = .lt) := by
  cases o1 <;> simp [Ordering.then]

theorem then_swap (o1 o2 : Ordering) : (o1.then o2).swap = o1.swap.then o2.swap := by
  cases o1 <;> simp [Ordering.then, Ordering.swap]

theorem strCmpB_eq_iff : ∀ a b : GoStr, strCmpB a b = .eq ↔ a = b
  | [], [] => by simp [strCmpB]
  | [], _ :: _ => by simp [strCmpB]
  | _ :: _, [] => by simp [strCmpB]
  | a :: as, b :: bs => by
    simp only [strCmpB, then_eq_eq, natCmp_eq_iff, strCmpB_eq_iff as bs, List.cons.injEq]

theorem strCmpB_swap : ∀ a b : GoStr, (strCmpB a b).swap = strCmpB b a
  | [], [] => rfl
  | [], _ :: _ => rfl
  | _ :: _, [] => rfl
  | a :: as, b :: bs => by
    simp only [strCmpB, then_swap, natCmp_swap, strCmpB_swap as bs]

theorem strCmpB_lt_trans :
    ∀ {a b c : GoStr}, strCmpB a b = .lt → strCmpB b c = .lt → strCmpB a c = .lt
  | [], [], _, h1, _ => by simp [strCmpB] at h1
  | [], _ :: _, [], _, h2 => by simp [strCmpB] at h2
  | [], _ :: _, _ :: _, _, _ => by simp [strCmpB]
  | _ :: _, [], _, h1, _ => by simp [strCmpB] at h1
  | _ :: _, _ :: _, [], _, h2 => by simp [strCmpB] at h2
  | a :: as, b :: bs, c :: cs, h1, h2 => by
    simp only [strCmpB, then_eq_lt, natCmp_lt_iff, natCmp_eq_iff] at h1 h2 ⊢
    rcases h1 with h1 | ⟨rfl, h1'⟩
    · rcases h2 with h2 | ⟨rfl, h2'⟩
      · left; omega
      · left; omega
    · rcases h2 with h2 | ⟨rfl, h2'⟩
      · left; omega
      · exact Or.inr ⟨rfl, strCmpB_lt_trans h1' h2'⟩

theorem addrCompare_eq_iff (a b : Addr) : addrCompare a b = .eq ↔ a = b := by
  unfold addrCompare
  rw [then_eq_eq, then_eq_eq, natCmp_eq_iff, natCmp_eq_iff, strCmpB_eq_iff]
  constructor
  · rintro ⟨h1, h2, h3⟩
    cases a; cases b; simp_all
  · rintro rfl
    exact ⟨rfl, rfl, rfl⟩

theorem addrCompare_swap (a b : Addr) : (addrCompare a b).swap = addrCompare b a := by
  unfold addrCompare
  rw [then_swap, then_swap, natCmp_swap, natCmp_swap, strCmpB_swap]

theorem addrCompare_lt_trans {a b c : Addr}
    (h1 : addrCompare a b = .lt) (h2 : addrCompare b c = .lt) : addrCompare a c = .lt := by
  unfold addrCompare at h1 h2 ⊢
  simp only [then_eq_lt, then_eq_eq, natCmp_lt_iff, natCmp_eq_iff] at h1 h2 ⊢
  rcases h1 with h1 | ⟨e1, h1 | ⟨e1', hz1⟩⟩ <;> rcases h2 with h2 | ⟨e2, h2 | ⟨e2', hz2⟩⟩
  · left; omega
  · left; omega
  · left; omega
  · left; omega
  · right; exact ⟨by omega, Or.inl (by omega)⟩
  · right; exact ⟨by omega, Or.inl (by omega)⟩
  · left; omega
  · right; exact ⟨by omega, Or.inl (by omega)⟩
  · right; exact ⟨by omega, Or.inr ⟨by omega, strCmpB_lt_trans hz1 hz2⟩⟩

theorem addrPortCompare_eq_iff (a b : AddrPort) : addrPortCompare a b = .eq ↔ a = b := by
  unfold addrPortCompare
  rw [then_eq_eq, natCmp_eq_iff, addrCompare_eq_iff]
  constructor
  · rintro ⟨h1, h2⟩
    cases a; cases b; simp_all
  · rintro rfl
    exact ⟨rfl, rfl⟩

theorem addrPortCompare_swap (a b : AddrPort) :
    (addrPortCompare a b).swap = addrPortCompare b a := by
  unfold addrPortCompare
  rw [then_swap, natCmp_swap, addrCompare_swap]

theorem addrPortCompare_lt_trans {a b c : AddrPort}
    (h1 : addrPortCompare a b = .lt) (h2 : addrPortCompare b c = .lt) :
    addrPortCompare a c = .lt := by
  unfold addrPortCompare at h1 h2 ⊢
  simp only [then_eq_lt, natCmp_lt_iff, addrCompare_eq_iff] at h1 h2 ⊢
  rcases h1 with h1 | ⟨e1, p1⟩
  · rcases h2 with h2 | ⟨e2, p2⟩
    · exact Or.inl (addrCompare_lt_trans h1 h2)
    · rw [e2] at h1
      exact Or.inl h1
  · rcases h2 with h2 | ⟨e2, p2⟩
    · rw [← e1] at h2
      exact Or.inl h2
    · exact Or.inr ⟨e1.trans e2, by omega⟩

theorem apLe_total (a b : AddrPort) : apLe a b ∨ apLe b a := by
  unfold apLe
  by_cases h : addrPortCompare a b = .gt
  · right
    intro hba
    have := addrPortCompare_swap a b
    rw [h, hba] at this
    simp [Ordering.swap] at this
  · left; exact h

theorem apLe_trans (a b c : AddrPort) (h1 : apLe a b) (h2 : apLe b c) : apLe a c := by
  unfold apLe at *
  rcases hab : addrPortCompare a b with _ | _ | _
  · rcases hbc : addrPortCompare b c with _ | _ | _
    · rw [addrPortCompare_lt_trans hab hbc]; simp
    · rw [addrPortCompare_eq_iff] at hbc
      subst hbc
      rw [hab]; simp
    · exact absurd hbc h2
  · rw [addrPortCompare_eq_iff] at hab
    subst hab
    exact h2
  · exact absurd hab h1

theorem apLe_antisymm {a b : AddrPort} (h1 : apLe a b) (h2 : apLe b a) : a = b := by
  unfold apLe at h1 h2
  rcases hab : addrPortCompare a b with _ | _ | _
  · have := addrPortCompare_swap a b
    rw [hab] at this
    simp [Ordering.swap] at this
    exact absurd this.symm h2
  · exact (addrPortCompare_eq_iff a b).mp hab
  · exact absurd hab h1

/-! ### Lemmas: sort and compact produce a sorted deduplicated list -/

theorem goSortAddrPorts_sorted (l : List AddrPort) :
    List.Sorted apLe (goSortAddrPorts l) := by
  haveI : IsTotal AddrPort apLe := ⟨apLe_total⟩
  haveI : IsTrans AddrPort apLe := ⟨apLe_trans⟩
  exact List.sorted_insertionSort apLe l

theorem goSortAddrPorts_perm (l : List AddrPort) : List.Perm (goSortAddrPorts l) l :=
  List.perm_insertionSort apLe l

theorem goCompactTail_sublist :
    ∀ (l : List AddrPort) (prev : AddrPort), (goCompactTail prev l).Sublist l := by
  intro l
  induction l with
  | nil => intro prev; simp [goCompactTail]
  | cons b rest ih =>
    intro prev
    rw [goCompactTail]
    split
    · exact (ih prev).trans (List.sublist_cons_self b rest)
    · exact List.cons_sublist_cons.mpr (ih b)

theorem goCompact_sublist : ∀ l : List AddrPort, (goCompact l).Sublist l := by
  intro l
  cases l with
  | nil => simp [goCompact]
  | cons a rest =>
    rw [goCompact]
    exact List.cons_sublist_cons.mpr (goCompactTail_sublist rest a)

theorem goCompactTail_mem :
    ∀ (l : List AddrPort) (prev x : AddrPort), x ∈ l → x = prev ∨ x ∈ goCompactTail prev l := by
  intro l
  induction l with
  | nil => intro prev x hx; simp at hx
  | cons b rest ih =>
    intro prev x hx
    rw [goCompactTail]
    split
    · next heq =>
      rcases List.mem_cons.mp hx with rfl | hx2
      · exact Or.inl heq.symm
      · exact ih prev x hx2
    · rcases List.mem_cons.mp hx with rfl | hx2
      · exact Or.inr (List.mem_cons_self x _)
      · rcases ih b x hx2 with rfl | hmem
        · exact Or.inr (List.mem_cons_self x _)
        · exact Or.inr (List.mem_cons_of_mem b hmem)

theorem goCompact_mem : ∀ (l : List AddrPort) (x : AddrPort), x ∈ l → x ∈ goCompact l := by
  intro l x hx
  cases l with
  | nil => simp at hx
  | cons a rest =>
    rw [goCompact]
    rcases List.mem_cons.mp hx with rfl | hx2
    · exact List.mem_cons_self x _
    · rcases goCompactTail_mem rest a x hx2 with rfl | hmem
      · exact List.mem_cons_self x _
      · exact List.mem_cons_of_mem a hmem

theorem goCompact_sorted {l : List AddrPort} (h : List.Sorted apLe l) :
    List.Sorted apLe (goCompact l) :=
  List.Pairwise.sublist (goCompact_sublist l) h

theorem goCompactTail_not_self :
    ∀ (l : List AddrPort) (prev : AddrPort), List.Sorted apLe (prev :: l) →
      prev ∉ goCompactTail prev l := by
  intro l
  induction l with
  | nil => intro prev _ h; simp [goCompactTail] at h
  | cons b rest ih =>
    intro prev hs hmem
    rw [goCompactTail] at hmem
    split at hmem
    · next heq =>
      refine ih prev ?_ hmem
      exact List.Pairwise.sublist
        (List.cons_sublist_cons.mpr (List.sublist_cons_self b rest)) hs
    · next hne =>
      rcases List.mem_cons.mp hmem with heq2 | hmem2
      · exact hne heq2
      · have hprev_b : apLe prev b := (List.sorted_cons.mp hs).1 b (List.mem_cons_self b rest)
        have hsb : List.Sorted apLe (b :: rest) := (List.sorted_cons.mp hs).2
        have hprev_rest : prev ∈ rest := (goCompactTail_sublist rest b).mem hmem2
        have hb_prev : apLe b prev := (List.sorted_cons.mp hsb).1 prev hprev_rest
        exact hne (apLe_antisymm hprev_b hb_prev)

theorem goCompactTail_nodup :
    ∀ (l : List AddrPort) (prev : AddrPort), List.Sorted apLe (prev :: l) →
      (goCompactTail prev l).Nodup := by
  intro l
  induction l with
  | nil => intro prev _; simp [goCompactTail]
  | cons b rest ih =>
    intro prev hs
    have hsb : List.Sorted apLe (b :: rest) := (List.sorted_cons.mp hs).2
    rw [goCompactTail]
    split
    · exact ih prev (List.Pairwise.sublist
        (List.cons_sublist_cons.mpr (List.sublist_cons_self b rest)) hs)
    · exact List.nodup_cons.mpr ⟨goCompactTail_not_self rest b hsb, ih b hsb⟩

theorem goCompact_nodup : ∀ l : List AddrPort, List.Sorted apLe l → (goCompact l).Nodup := by
  intro l h
  cases l with
  | nil => simp [goCompact]
  | cons a rest =>
    rw [goCompact]
    exact List.nodup_cons.mpr ⟨goCompactTail_not_self rest a h, goCompactTail_nodup rest a h⟩

theorem sortDedup_sorted (l : List AddrPort) :
    List.Sorted apLe (goCompact (goSortAddrPorts l)) :=
  goCompact_sorted (goSortAddrPorts_sorted l)

theorem sortDedup_nodup (l : List AddrPort) : (goCompact (goSortAddrPorts l)).Nodup :=
  goCompact_nodup _ (goSortAddrPorts_sorted l)

theorem sortDedup_mem (l : List AddrPort) (x : AddrPort) :
    x ∈ goCompact (goSortAddrPorts l) ↔ x ∈ l := by
  constructor
  · intro h
    exact (goSortAddrPorts_perm l).mem_iff.mp ((goCompact_sublist _).mem h)
  · intro h
    exact goCompact_mem _ x ((goSortAddrPorts_perm l).mem_iff.mpr h)

theorem selfAndObservedAddrs_spec (m : Meta) :
    List.Sorted apLe (selfAndObservedAddrs m) ∧ (selfAndObservedAddrs m).Nodup ∧
      ∀ x, x ∈ selfAndObservedAddrs m ↔ x ∈ m.selfAddrs ∨ m.observedAddr = some x := by
  refine ⟨sortDedup_sorted _, sortDedup_nodup _, fun x => ?_⟩
  rw [selfAndObservedAddrs, sortDedup_mem, List.mem_append]
  constructor
  · rintro (h | h)
    · exact Or.inl h
    · right
      cases ho : m.observedAddr with
      | none => rw [ho] at h; simp at h
      | some a => rw [ho] at h; simp at h; rw [h]
  · rintro (h | h)
    · exact Or.inl h
    · right
      rw [h]
      simp

/-! ### C4: dispatched pairs carry cross-populated sorted deduplicated peer addrs -/

/-- C4: whenever the reconciliation step dispatches a pair (dc, ac), each
side's PeerAddrs is exactly the other side's SelfAddrs with its ObservedAddr
appended when present, sorted by AddrPort.Compare with adjacent duplicates
removed — hence a sorted, duplicate-free list whose members are exactly the
union of the other side's self-reported and observed addresses. -/
theorem c4_peer_addrs_exchange (idle : IdleMap) (ev : SrvEv) (dc ac : Meta)
    (hmem : SrvOut.dispatched dc ac ∈ (serveStep idle ev).2) :
    dc.peerAddrs = goCompact (goSortAddrPorts (ac.selfAddrs ++ ac.observedAddr.toList)) ∧
    ac.peerAddrs = goCompact (goSortAddrPorts (dc.selfAddrs ++ dc.observedAddr.toList)) ∧
    List.Sorted apLe dc.peerAddrs ∧ dc.peerAddrs.Nodup ∧
    List.Sorted apLe ac.peerAddrs ∧ ac.peerAddrs.Nodup ∧
    (∀ x, x ∈ dc.peerAddrs ↔ x ∈ ac.selfAddrs ∨ ac.observedAddr = some x) ∧
    (∀ x, x ∈ ac.peerAddrs ↔ x ∈ dc.selfAddrs ∨ dc.observedAddr = some x) := by
  cases ev with
  | mon tok =>
    exfalso
    simp only [serveStep] at hmem
    split at hmem <;> simp at hmem
  | req r =>
    simp only [serveStep] at hmem
    split at hmem
    · simp at hmem
    · split at hmem
      · split at hmem
        · simp only [List.mem_singleton, SrvOut.dispatched.injEq] at hmem
          obtain ⟨rfl, rfl⟩ := hmem
          refine ⟨rfl, rfl, ?_⟩
          refine ⟨sortDedup_sorted _, sortDedup_nodup _, sortDedup_sorted _, sortDedup_nodup _, ?_, ?_⟩
          · intro x
            exact (selfAndObservedAddrs_spec _).2.2 x
          · intro x
            exact (selfAndObservedAddrs_spec _).2.2 x
        · simp at hmem
      · simp at hmem

/-- Witness: a DIAL arrival pairs with an idle ACCEPT conn whose addr list is
unsorted and overlapping; the dispatched sides carry the sorted deduplicated
exchange. -/
theorem c4_peer_addrs_exchange_witness :
    SrvOut.dispatched dcW4 acW4 ∈ (serveStep idleW4 (.req reqW4)).2 ∧
      dcW4.peerAddrs = goCompact (goSortAddrPorts (acW4.selfAddrs ++ acW4.observedAddr.toList)) ∧
      dcW4.peerAddrs = [apA, apO, apB] :=
  ⟨by decide,
   (c4_peer_addrs_exchange idleW4 (.req reqW4) dcW4 acW4 (by decide)).1,
   by decide⟩

/-! ### Lemmas: lobby map operations -/

theorem lookupTok_mem : ∀ {m : IdleMap} {tok : GoStr} {c : Meta},
    lookupTok m tok = some c → (tok, c) ∈ m := by
  intro m
  induction m with
  | nil => intro tok c h; simp [lookupTok] at h
  | cons q rest ih =>
    intro tok c h
    obtain ⟨t, v⟩ := q
    rw [lookupTok] at h
    split at h
    · next heq =>
      simp only [Option.some.injEq] at h
      subst heq
      subst h
      exact List.mem_cons_self _ _
    · exact List.mem_cons_of_mem _ (ih h)

theorem eraseTok_mem : ∀ {m : IdleMap} {tok : GoStr} {p : GoStr × Meta},
    p ∈ eraseTok m tok → p ∈ m := by
  intro m
  induction m with
  | nil => intro tok p h; simp [eraseTok] at h
  | cons q rest ih =>
    intro tok p h
    obtain ⟨t, v⟩ := q
    rw [eraseTok] at h
    split at h
    · exact List.mem_cons_of_mem _ (ih h)
    · rcases List.mem_cons.mp h with rfl | h2
      · exact List.mem_cons_self _ _
      · exact List.mem_cons_of_mem _ (ih h2)

theorem insertTok_mem {m : IdleMap} {tok : GoStr} {c : Meta} {p : GoStr × Meta}
    (h : p ∈ insertTok m tok c) : p ∈ m ∨ p = (tok, c) := by
  unfold insertTok at h
  rcases List.mem_append.mp h with h2 | h2
  · exact Or.inl (eraseTok_mem h2)
  · exact Or.inr (List.mem_singleton.mp h2)

theorem newMeta_valid {method token : GoStr} {m : Meta} (h : newMeta method token = .ok m) :
    (m.method = DIALb ∨ m.method = ACCEPTb) ∧ m.method = method ∧ m.token = token ∧
      m.selfAddrs = [] ∧ m.observedAddr = none ∧ m.peerAddrs = [] := by
  unfold newMeta at h
  split_ifs at h with h1 h2
  all_goals first
    | exact Except.noConfusion h
    | (simp only [Except.ok.injEq] at h
       subst h
       exact ⟨h2, rfl, rfl, rfl, rfl, rfl⟩)

theorem parseRdvRequest_ok {r : HttpReq} {m : Meta} (h : parseRdvRequest r = .ok m) :
    (m.method = DIALb ∨ m.method = ACCEPTb) ∧ m.method = r.method ∧
      m.token = cutSlash r.urlPath ∧ m.observedAddr = none ∧ m.peerAddrs = [] ∧
      m.selfAddrs.length ≤ maxAddrs - 1 := by
  unfold parseRdvRequest at h
  split_ifs at h with h1 h2
  split at h
  · exact Except.noConfusion h
  · next m0 hnm =>
    split at h
    · exact Except.noConfusion h
    · next sa hsa =>
      split_ifs at h with hcap
      simp only [Except.ok.injEq] at h
      subst h
      obtain ⟨hval, hmeth, htok, _, hobs, hpeer⟩ := newMeta_valid hnm
      exact ⟨by simpa using hval, by simpa using hmeth, by simpa using htok,
        by simpa using hobs, by simpa using hpeer, by simpa using hcap⟩

/-! ### C2: every dispatched pair is one DIAL and one ACCEPT -/

theorem serveStep_valid {idle : IdleMap} (ev : SrvEv) (hv : idleValid idle) :
    idleValid (serveStep idle ev).1 ∧
      ∀ dc ac, SrvOut.dispatched dc ac ∈ (serveStep idle ev).2 →
        dc.method = DIALb ∧ ac.method = ACCEPTb := by
  cases ev with
  | mon tok =>
    simp only [serveStep]
    split
    · exact ⟨fun p hp => hv p (eraseTok_mem hp), fun dc ac h => by simp at h⟩
    · exact ⟨fun p hp => hv p (eraseTok_mem hp), fun dc ac h => by simp at h⟩
  | req r =>
    simp only [serveStep]
    split
    · exact ⟨hv, fun dc ac h => by simp at h⟩
    · next m0 hp =>
      have hm0 := parseRdvRequest_ok hp
      split
      · next idleConn hl =>
        have hidle : validMethod idleConn := hv _ (lookupTok_mem hl)
        split
        · next hne =>
          refine ⟨fun p hp2 => hv p (eraseTok_mem hp2), fun dc ac h => ?_⟩
          simp only [List.mem_singleton, SrvOut.dispatched.injEq] at h
          obtain ⟨rfl, rfl⟩ := h
          by_cases hd : m0.method = DIALb
          · rw [if_pos hd, if_pos hd]
            refine ⟨by simpa using hd, ?_⟩
            rcases hidle with h1 | h1
            · exfalso
              apply hne
              simp [h1, hd]
            · simpa using h1
          · rw [if_neg hd, if_neg hd]
            have hacc : m0.method = ACCEPTb := by
              rcases hm0.1 with h1 | h1
              · exact absurd h1 hd
              · exact h1
            refine ⟨?_, by simpa using hacc⟩
            rcases hidle with h1 | h1
            · simpa using h1
            · exfalso
              apply hne
              simp [h1, hacc]
        · refine ⟨fun p hp2 => ?_, fun dc ac h => by simp at h⟩
          rcases insertTok_mem hp2 with hmm | rfl
          · exact hv p hmm
          · simpa [validMethod] using hm0.1
      · refine ⟨fun p hp2 => ?_, fun dc ac h => by simp at h⟩
        rcases insertTok_mem hp2 with hmm | rfl
        · exact hv p hmm
        · simpa [validMethod] using hm0.1

theorem serverRun_aux :
    ∀ (evs : List SrvEv) (st : IdleMap × List SrvOut),
      idleValid st.1 →
      (∀ dc ac, SrvOut.dispatched dc ac ∈ st.2 → dc.method = DIALb ∧ ac.method = ACCEPTb) →
      idleValid (evs.foldl (fun st ev =>
        let r := serveStep st.1 ev
        (r.1, st.2 ++ r.2)) st).1 ∧
      ∀ dc ac, SrvOut.dispatched dc ac ∈ (evs.foldl (fun st ev =>
        let r := serveStep st.1 ev
        (r.1, st.2 ++ r.2)) st).2 → dc.method = DIALb ∧ ac.method = ACCEPTb := by
  intro evs
  induction evs with
  | nil => intro st h1 h2; exact ⟨h1, h2⟩
  | cons e rest ih =>
    intro st h1 h2
    simp only [List.foldl_cons]
    apply ih
    · exact (serveStep_valid e h1).1
    · intro dc ac h
      rcases List.mem_append.mp h with h3 | h3
      · exact h2 dc ac h3
      · exact (serveStep_valid e h1).2 dc ac h3

/-- C2: every pair the reconciliation loop dispatches to the handler, over
any event sequence from the empty lobby, has the DIAL conn first and the
ACCEPT conn second after the swap — one of each method, never two of the
same. -/
theorem c2_pairing_opposite (evs : List SrvEv) (dc ac : Meta)
    (hmem : SrvOut.dispatched dc ac ∈ (serverRun evs).2) :
    dc.method = DIALb ∧ ac.method = ACCEPTb ∧ dc.method ≠ ac.method := by
  have := (serverRun_aux evs ([], []) (fun p hp => by simp at hp)
    (fun dc ac h => by simp at h)).2 dc ac hmem
  refine ⟨this.1, this.2, ?_⟩
  rw [this.1, this.2]
  decide

/-- Witness: a DIAL then an ACCEPT arrival on token "z" produce a dispatched
pair with the dial side first. -/
theorem c2_pairing_opposite_witness :
    SrvOut.dispatched dcW2 acW2 ∈ (serverRun evsW2).2 ∧
      dcW2.method = DIALb ∧ acW2.method = ACCEPTb :=
  ⟨by decide,
   (c2_pairing_opposite evsW2 dcW2 acW2 (by decide)).1,
   (c2_pairing_opposite evsW2 dcW2 acW2 (by decide)).2.1⟩

/-! ### C3: at most one lobby entry per token; same-method arrivals evict with 409 -/

theorem eraseTok_keys_not_mem :
    ∀ (m : IdleMap) (tok : GoStr), tok ∉ (eraseTok m tok).map Prod.fst := by
  intro m
  induction m with
  | nil => intro tok h; simp [eraseTok] at h
  | cons q rest ih =>
    intro tok h
    obtain ⟨t, v⟩ := q
    rw [eraseTok] at h
    split at h
    · exact ih tok h
    · next hne =>
      rw [List.map_cons] at h
      rcases List.mem_cons.mp h with h2 | h2
      · exact hne h2.symm
      · exact ih tok h2

theorem eraseTok_keys_sublist :
    ∀ (m : IdleMap) (tok : GoStr),
      ((eraseTok m tok).map Prod.fst).Sublist (m.map Prod.fst) := by
  intro m
  induction m with
  | nil => intro tok; simp [eraseTok]
  | cons q rest ih =>
    intro tok
    obtain ⟨t, v⟩ := q
    rw [eraseTok]
    split
    · exact (ih tok).trans (by simp)
    · rw [List.map_cons, List.map_cons]
      exact List.cons_sublist_cons.mpr (ih tok)

theorem uniqKeys_eraseTok {m : IdleMap} (h : uniqKeys m) (tok : GoStr) :
    uniqKeys (eraseTok m tok) :=
  List.Nodup.sublist (eraseTok_keys_sublist m tok) h

theorem uniqKeys_insertTok {m : IdleMap} (h : uniqKeys m) (tok : GoStr) (c : Meta) :
    uniqKeys (insertTok m tok c) := by
  unfold uniqKeys insertTok
  rw [List.map_append]
  refine List.Nodup.append (uniqKeys_eraseTok h tok) (by simp) ?_
  intro a ha hb
  simp only [List.map_cons, List.map_nil, List.mem_singleton] at hb
  rw [hb] at ha
  exact eraseTok_keys_not_mem m tok ha

theorem lookup_append_self :
    ∀ (l : IdleMap) (tok : GoStr) (c : Meta), tok ∉ l.map Prod.fst →
      lookupTok (l ++ [(tok, c)]) tok = some c := by
  intro l
  induction l with
  | nil => intro tok c _; simp [lookupTok]
  | cons q rest ih =>
    intro tok c hnm
    obtain ⟨t, v⟩ := q
    have hne : ¬ t = tok := fun heq => hnm (by simp [heq])
    rw [List.cons_append, lookupTok, if_neg hne]
    exact ih tok c (fun h2 => hnm (by rw [List.map_cons]; exact List.mem_cons_of_mem _ h2))

theorem lookupTok_insertTok (m : IdleMap) (tok : GoStr) (c : Meta) :
    lookupTok (insertTok m tok c) tok = some c :=
  lookup_append_self _ tok c (eraseTok_keys_not_mem m tok)

theorem insertTok_key_unique {m : IdleMap} {tok : GoStr} {c c' : Meta}
    (h : (tok, c') ∈ insertTok m tok c) : c' = c := by
  unfold insertTok at h
  rcases List.mem_append.mp h with h2 | h2
  · exfalso
    apply eraseTok_keys_not_mem m tok
    exact (List.mem_map_of_mem Prod.fst h2 : _)
  · simpa using congrArg Prod.snd (List.mem_singleton.mp h2)

theorem filter_key_nil :
    ∀ (m : IdleMap) (t : GoStr), t ∉ m.map Prod.fst →
      m.filter (fun p => decide (p.1 = t)) = [] := by
  intro m
  induction m with
  | nil => intro t _; simp
  | cons q rest ih =>
    intro t hnm
    obtain ⟨tq, v⟩ := q
    have h1 : ¬ tq = t := fun h => hnm (by simp [h])
    have h2 : (decide ((tq, v).1 = t)) = false := by simp [h1]
    rw [List.filter_cons, h2]
    simp only [Bool.false_eq_true, if_false]
    exact ih t (fun h3 => hnm (by rw [List.map_cons]; exact List.mem_cons_of_mem _ h3))

theorem filter_key_le_one :
    ∀ (m : IdleMap), uniqKeys m → ∀ t : GoStr,
      (m.filter (fun p => decide (p.1 = t))).length ≤ 1 := by
  intro m
  induction m with
  | nil => intro _ t; simp
  | cons q rest ih =>
    intro h t
    obtain ⟨tq, v⟩ := q
    unfold uniqKeys at h
    rw [List.map_cons, List.nodup_cons] at h
    by_cases heq : tq = t
    · subst heq
      have h2 : (decide ((tq, v).1 = tq)) = true := by simp
      rw [List.filter_cons, h2, if_pos rfl, filter_key_nil rest tq h.1]
      simp
    · have h2 : (decide ((tq, v).1 = t)) = false := by simp [heq]
      rw [List.filter_cons, h2]
      simp only [Bool.false_eq_true, if_false]
      exact ih h.2 t

theorem serveStep_uniq {idle : IdleMap} (ev : SrvEv) (h : uniqKeys idle) :
    uniqKeys (serveStep idle ev).1 := by
  cases ev with
  | mon tok =>
    simp only [serveStep]
    split
    · exact uniqKeys_eraseTok h _
    · exact uniqKeys_eraseTok h _
  | req r =>
    simp only [serveStep]
    split
    · exact h
    · split
      · split
        · exact uniqKeys_eraseTok h _
        · exact uniqKeys_insertTok h _ _
      · exact uniqKeys_insertTok h _ _

theorem serverRun_uniq_aux :
    ∀ (evs : List SrvEv) (st : IdleMap × List SrvOut), uniqKeys st.1 →
      uniqKeys (evs.foldl (fun st ev =>
        let r := serveStep st.1 ev
        (r.1, st.2 ++ r.2)) st).1 := by
  intro evs
  induction evs with
  | nil => intro st h; exact h
  | cons e rest ih =>
    intro st h
    simp only [List.foldl_cons]
    exact ih _ (serveStep_uniq e h)

/-- C3: the lobby never holds two entries for one token (a fortiori at most
one of each method), and an arrival matching an idle entry of the same
method makes the step: old conn answered 409 "replaced by another conn" and
removed, new conn stored in its place as the only entry for that token. -/
theorem c3_lobby_exclusivity :
    (∀ (evs : List SrvEv) (t : GoStr), uniqKeys (serverRun evs).1 ∧
      ((serverRun evs).1.filter (fun p => decide (p.1 = t))).length ≤ 1) ∧
    (∀ (idle : IdleMap) (r : HttpReq) (m0 old : Meta),
      parseRdvRequest r = .ok m0 →
      lookupTok idle m0.token = some old →
      old.method = m0.method →
      serveStep idle (.req r) =
        (insertTok idle m0.token { m0 with observedAddr := r.remoteObserved },
          [SrvOut.httpErr old 409 "replaced by another conn"]) ∧
      lookupTok (insertTok idle m0.token { m0 with observedAddr := r.remoteObserved })
        m0.token = some { m0 with observedAddr := r.remoteObserved } ∧
      ∀ c, (m0.token, c) ∈ insertTok idle m0.token { m0 with observedAddr := r.remoteObserved } →
        c = { m0 with observedAddr := r.remoteObserved }) := by
  constructor
  · intro evs t
    have huniq : uniqKeys (serverRun evs).1 :=
      serverRun_uniq_aux evs ([], []) (by simp [uniqKeys])
    exact ⟨huniq, filter_key_le_one _ huniq t⟩
  · intro idle r m0 old hp hl hm
    have hstep : serveStep idle (.req r) =
        (insertTok idle m0.token { m0 with observedAddr := r.remoteObserved },
          [SrvOut.httpErr old 409 "replaced by another conn"]) := by
      simp only [serveStep, hp, hl]
      rw [if_neg (by simp [hm])]
    exact ⟨hstep, lookupTok_insertTok idle m0.token _,
      fun c hc => insertTok_key_unique hc⟩

/-- Witness: a second DIAL arrival on token "z" evicts the idle dial conn
with 409 and takes its place. -/
theorem c3_lobby_exclusivity_witness :
    serveStep idleW3 (.req reqDial2W) =
      (insertTok idleW3 [122] conn2W,
        [SrvOut.httpErr dialMetaW 409 "replaced by another conn"]) ∧
    lookupTok (insertTok idleW3 [122] conn2W) [122] = some conn2W ∧
    ∀ c, ([122], c) ∈ insertTok idleW3 [122] conn2W → c = conn2W :=
  c3_lobby_exclusivity.2 idleW3 reqDial2W dialMetaW dialMetaW rfl (by decide) rfl

/-! ### C5: the picker orders non-relays first, stably -/

theorem qLess_eval (y x : CConn) :
    qLess y x = (!y.isRelay && x.isRelay) := by
  unfold qLess byQuality
  cases hy : y.isRelay <;> cases hx : x.isRelay <;> simp

theorem stableInsert_partition (x : CConn) :
    ∀ (N R : List CConn), (∀ y ∈ N, y.isRelay = false) → (∀ y ∈ R, y.isRelay = true) →
      stableInsert qLess x (N ++ R) =
        if x.isRelay then N ++ x :: R else x :: (N ++ R) := by
  intro N
  induction N with
  | nil =>
    intro R hN hR
    cases R with
    | nil => cases hx : x.isRelay <;> simp [stableInsert, hx]
    | cons r rs =>
      have hr : r.isRelay = true := hR r (List.mem_cons_self r rs)
      rw [List.nil_append, stableInsert]
      have hq : qLess r x = false := by rw [qLess_eval, hr]; simp
      rw [hq]
      cases hx : x.isRelay <;> simp [hx]
  | cons n ns ih =>
    intro R hN hR
    have hn : n.isRelay = false := hN n (List.mem_cons_self n ns)
    have ihs := ih R (fun y hy => hN y (List.mem_cons_of_mem n hy)) hR
    rw [List.cons_append, stableInsert]
    cases hx : x.isRelay
    · have hq : qLess n x = false := by rw [qLess_eval, hn, hx]; simp
      rw [hq]
      simp [hx]
    · have hq : qLess n x = true := by rw [qLess_eval, hn, hx]; simp
      rw [hq]
      simp only [if_pos rfl, ihs, hx, if_true]
      simp

theorem goSortStable_filter : ∀ l : List CConn,
    goSortStable qLess l =
      l.filter (fun c => !c.isRelay) ++ l.filter (fun c => c.isRelay) := by
  intro l
  induction l with
  | nil => rfl
  | cons x xs ih =>
    rw [goSortStable, ih,
      stableInsert_partition x _ _ (fun y hy => by simpa using List.of_mem_filter hy)
        (fun y hy => by simpa using List.of_mem_filter hy)]
    cases hx : x.isRelay <;> simp [List.filter_cons, hx]

theorem filter_partition_perm : ∀ l : List CConn,
    List.Perm (l.filter (fun c => !c.isRelay) ++ l.filter (fun c => c.isRelay)) l := by
  intro l
  induction l with
  | nil => simp
  | cons x xs ih =>
    rw [List.filter_cons, List.filter_cons]
    cases hx : x.isRelay
    · simp only [hx, Bool.not_false, if_true, Bool.false_eq_true, if_false, List.cons_append]
      exact ih.cons x
    · simp only [hx, Bool.not_true, Bool.false_eq_true, if_false, if_true]
      exact List.perm_middle.trans (ih.cons x)

theorem filter_relay_all : ∀ l : List CConn, (∀ c ∈ l, c.isRelay = true) →
    l.filter (fun c => !c.isRelay) = [] ∧ l.filter (fun c => c.isRelay) = l := by
  intro l
  induction l with
  | nil => intro _; simp
  | cons x xs ih =>
    intro h
    have hx := h x (List.mem_cons_self x xs)
    have ihr := ih (fun c hc => h c (List.mem_cons_of_mem x hc))
    rw [List.filter_cons, List.filter_cons]
    simp [hx, ihr.1, ihr.2]

/-- C5: connPicker.Pick returns all delivered candidates with every non-relay
before every relay, preserving arrival order inside each group; so the chosen
conns[0] is the earliest delivered non-relay when one exists, and when only
relay conns were delivered (e.g. the deadline elapsed with just the relay)
the relay list — in particular the relay itself — is returned. -/
theorem c5_picker_order (cfg : ConnPickerCfg) (delivered : List CConn) :
    connPickerPick cfg delivered =
      delivered.filter (fun c => !c.isRelay) ++ delivered.filter (fun c => c.isRelay) ∧
    List.Perm (connPickerPick cfg delivered) delivered ∧
    (delivered.filter (fun c => !c.isRelay) ≠ [] →
      (connPickerPick cfg delivered).head? =
        (delivered.filter (fun c => !c.isRelay)).head?) ∧
    ((∀ c ∈ delivered, c.isRelay = true) → connPickerPick cfg delivered = delivered) := by
  have hmain : connPickerPick cfg delivered =
      delivered.filter (fun c => !c.isRelay) ++ delivered.filter (fun c => c.isRelay) :=
    goSortStable_filter delivered
  refine ⟨hmain, ?_, ?_, ?_⟩
  · rw [hmain]
    exact filter_partition_perm delivered
  · intro hne
    rw [hmain]
    cases hN : delivered.filter (fun c => !c.isRelay) with
    | nil => exact absurd hN hne
    | cons a as => simp
  · intro hall
    rw [hmain, (filter_relay_all delivered hall).1, (filter_relay_all delivered hall).2,
      List.nil_append]

/-- Witness: with a relay delivered first and a direct conn second, Pick puts
the direct conn first; with only the relay delivered, the relay is returned. -/
theorem c5_picker_order_witness :
    connPickerPick (WaitForP2P oneSecondNs) [relayW, directW] = [directW, relayW] ∧
      (connPickerPick (WaitForP2P oneSecondNs) [relayW, directW]).head? = some directW ∧
      connPickerPick PickFirst [relayW] = [relayW] :=
  ⟨by rw [(c5_picker_order (WaitForP2P oneSecondNs) [relayW, directW]).1]; decide,
   by rw [(c5_picker_order (WaitForP2P oneSecondNs) [relayW, directW]).2.2.1 (by decide)]; decide,
   (c5_picker_order PickFirst [relayW]).2.2.2 (by decide)⟩

/-! ### C6: the self-addr and peer-addr list caps -/

/-- C6: with the other checks passing, parseRdvRequest rejects a request
whose parsed Rdv-Self-Addrs list has more than maxAddrs - 1 = 9 entries and
accepts one at or below, keeping the parsed list; parseRdvResponse rejects a
response whose parsed Rdv-Peer-Addrs list has more than maxAddrs = 10
entries with an ErrBadHandshake-wrapped error and accepts one at or below. -/
theorem c6_addr_caps :
    (∀ (r : HttpReq) (L : List AddrPort) (m : Meta),
      checkUpgradeHeaders r.connectionHdr r.upgradeHdr = true →
      asciiLower r.proto = http11B →
      newMeta r.method (cutSlash r.urlPath) = .ok m →
      parseAddrPorts r.selfAddrsHdr = some L →
      (L.length > 9 → parseRdvRequest r = .error .tooManySelfAddrs) ∧
      (L.length ≤ 9 → parseRdvRequest r = .ok { m with selfAddrs := L })) ∧
    (∀ (m : Meta) (r : HttpResp) (L : List AddrPort),
      r.statusCode = 101 →
      checkUpgradeHeaders r.connectionHdr r.upgradeHdr = true →
      parseAddrPorts r.peerAddrsHdr = some L →
      (L.length > 10 → parseRdvResponse m r = .error .tooManyPeerAddrs ∧
        respErrIsBadHandshake .tooManyPeerAddrs = true) ∧
      (L.length ≤ 10 → r.observedAddrHdr = [] →
        parseRdvResponse m r = .ok { m with peerAddrs := L })) := by
  constructor
  · intro r L m hck hproto hnm hpa
    unfold parseRdvRequest
    rw [if_neg (by simp [hck]), if_neg (by simp [hproto])]
    simp only [hnm, hpa]
    constructor
    · intro hlen
      rw [if_pos (by simp only [maxAddrs]; omega)]
    · intro hlen
      rw [if_neg (by simp only [maxAddrs]; omega)]
  · intro m r L hst hck hpa
    unfold parseRdvResponse
    rw [if_neg (by simp [hst]), if_neg (by simp [hck])]
    simp only [hpa]
    constructor
    · intro hlen
      rw [if_pos (by simp only [maxAddrs]; omega)]
      exact ⟨rfl, rfl⟩
    · intro hlen hobs
      rw [if_neg (by simp only [maxAddrs]; omega), if_neg (by simp [hobs])]

/-- Witness: ten identical self addrs are rejected and one is accepted;
eleven peer addrs are rejected and one is accepted. -/
theorem c6_addr_caps_witness :
    parseRdvRequest reqCap10W = .error .tooManySelfAddrs ∧
      parseRdvRequest reqCap1W = .ok { dialMetaW with selfAddrs := [ap1W] } ∧
      parseRdvResponse dialMetaW respBadW = .error .tooManyPeerAddrs ∧
      parseRdvResponse dialMetaW respW = .ok { dialMetaW with peerAddrs := [ap1W] } :=
  ⟨(c6_addr_caps.1 reqCap10W (List.replicate 10 ap1W) dialMetaW rfl rfl rfl rfl).1
      (by decide),
   (c6_addr_caps.1 reqCap1W [ap1W] dialMetaW rfl rfl rfl rfl).2 (by decide),
   ((c6_addr_caps.2 dialMetaW respBadW (List.replicate 11 ap1W) rfl rfl rfl).1
      (by decide)).1,
   (c6_addr_caps.2 dialMetaW respW [ap1W] rfl rfl rfl).2 (by decide) rfl⟩

/-! ### C7: readCmdContinue outcomes -/

theorem dropWhile_dropWhile (p : Nat → Bool) :
    ∀ l : GoStr, (l.dropWhile p).dropWhile p = l.dropWhile p := by
  intro l
  induction l with
  | nil => simp
  | cons a l ih =>
    rw [List.dropWhile_cons]
    split
    · exact ih
    · next h => rw [List.dropWhile_cons, if_neg h]

theorem dropWhile_of_takeWhile_nil {p : Nat → Bool} {l : GoStr}
    (h : l.takeWhile p = []) : l.dropWhile p = l := by
  cases l with
  | nil => rfl
  | cons a l =>
    by_cases hpa : p a
    · rw [List.takeWhile_cons, if_pos hpa] at h
      exact absurd h (by simp)
    · rw [List.dropWhile_cons, if_neg hpa]

theorem scanTok_none {s : GoStr} (h : (s.dropWhile isSpaceB).takeWhile isTokB = []) :
    scanTok s = none := by
  unfold scanTok
  rw [if_pos (by simp [h])]

theorem scanTok_some {s : GoStr} (h : (s.dropWhile isSpaceB).takeWhile isTokB ≠ []) :
    scanTok s = some ((s.dropWhile isSpaceB).takeWhile isTokB,
      (s.dropWhile isSpaceB).dropWhile isTokB) := by
  unfold scanTok
  rw [if_neg (by simpa using h)]

theorem sscanf2_spec (line : GoStr) :
    sscanf2 line = (lineCmd line, lineArg line, lineScans2 line) := by
  by_cases h1 : (line.dropWhile isSpaceB).takeWhile isTokB = []
  · have hd : (line.dropWhile isSpaceB).dropWhile isTokB = line.dropWhile isSpaceB :=
      dropWhile_of_takeWhile_nil h1
    have hcmd : lineCmd line = [] := h1
    have harg : lineArg line = [] := by
      simp only [lineArg]
      rw [hd, dropWhile_dropWhile isSpaceB line, h1]
    have hfl : lineScans2 line = false := by
      unfold lineScans2
      rw [hcmd]
      simp
    unfold sscanf2
    rw [scanTok_none h1, hcmd, harg, hfl]
  · by_cases h2 :
      ((((line.dropWhile isSpaceB).dropWhile isTokB).dropWhile isSpaceB).takeWhile isTokB) = []
    · have harg : lineArg line = [] := by
        simp only [lineArg]
        rw [h2]
      have hfl : lineScans2 line = false := by
        unfold lineScans2
        rw [harg]
        simp
      simp only [sscanf2, scanTok_some h1, scanTok_none h2, lineCmd]
      rw [harg, hfl]
    · have harg : lineArg line =
          (((line.dropWhile isSpaceB).dropWhile isTokB).dropWhile isSpaceB).takeWhile isTokB :=
        rfl
      have d1 : decide (lineCmd line ≠ []) = true := by
        simp [lineCmd, h1]
      have d2 : decide (lineArg line ≠ []) = true := by
        rw [harg]
        simp [h2]
      have hfl : lineScans2 line = scanEol
          ((((line.dropWhile isSpaceB).dropWhile isTokB).dropWhile isSpaceB).dropWhile isTokB) := by
        unfold lineScans2
        rw [d1, d2]
        simp
      simp only [sscanf2, scanTok_some h1, scanTok_some h2, lineCmd]
      rw [harg, hfl]

/-- C7 counterexample: the stream "OTHER\n" — an OTHER command with no
argument, i.e. a malformed command line that is neither CONTINUE nor an
OTHER-with-argument — makes readCmdContinue return the raw Sscanf error, not
the wrapped rdv protocol error the claim requires for every malformed or
unknown command line. -/
theorem c7_counterexample :
    readCmdContinue goBufSize otherLineW = .errScan ∧ CmdRes.errScan ≠ CmdRes.errProto := by
  constructor
  · decide
  · decide

/-- C7 (amended): readCmdContinue returns nil exactly when the line's first
token is CONTINUE; when the line scans as exactly two tokens "<cmd> <arg>"
it returns ErrOther carrying the parsed ip:port (the zero address on a parse
error) for cmd = OTHER and the wrapped rdv protocol error for any other cmd;
when the line fails to scan as two tokens (and its first token is not
CONTINUE) it returns the raw scan error; a line-read failure is returned
directly. -/
theorem c7_cmd_continue (bufSize : Nat) (s line rest : GoStr)
    (hline : bufReadLine bufSize s = some (line, rest)) :
    (readCmdContinue bufSize s = .ok ↔ lineCmd line = CONTINUEb) ∧
    (lineCmd line ≠ CONTINUEb → lineScans2 line = true → lineCmd line = OTHERb →
      readCmdContinue bufSize s =
        .errOther ((netipParseAddrPort (lineArg line)).getD zeroAddrPort)) ∧
    (lineCmd line ≠ CONTINUEb → lineScans2 line = true → lineCmd line ≠ OTHERb →
      readCmdContinue bufSize s = .errProto) ∧
    (lineCmd line ≠ CONTINUEb → lineScans2 line = false →
      readCmdContinue bufSize s = .errScan) ∧
    (∀ s2 : GoStr, bufReadLine bufSize s2 = none → readCmdContinue bufSize s2 = .errRead) := by
  have hbody : readCmdContinue bufSize s = readCmdLine line := by
    unfold readCmdContinue
    rw [hline]
  have hcmd : readCmdLine line =
      (if lineCmd line = CONTINUEb then .ok
       else if lineScans2 line = false then .errScan
       else if lineCmd line = OTHERb then
         .errOther ((netipParseAddrPort (lineArg line)).getD zeroAddrPort)
       else .errProto) := by
    unfold readCmdLine
    rw [sscanf2_spec]
  rw [hbody, hcmd]
  refine ⟨?_, ?_, ?_, ?_, ?_⟩
  · by_cases hc : lineCmd line = CONTINUEb
    · rw [if_pos hc]
      simp [hc]
    · rw [if_neg hc]
      by_cases hs : lineScans2 line = false
      · rw [if_pos hs]
        simp [hc]
      · rw [if_neg hs]
        by_cases ho : lineCmd line = OTHERb
        · rw [if_pos ho]
          simp [hc]
        · rw [if_neg ho]
          simp [hc]
  · intro hc hs ho
    rw [if_neg hc, if_neg (by simp [hs]), if_pos ho]
  · intro hc hs ho
    rw [if_neg hc, if_neg (by simp [hs]), if_neg ho]
  · intro hc hs
    rw [if_neg hc, if_pos hs]
  · intro s2 h2
    unfold readCmdContinue
    rw [h2]

/-- Witness: "OTHER 1.2.3.4:5\n" yields ErrOther carrying 1.2.3.4:5. -/
theorem c7_cmd_continue_witness :
    readCmdContinue goBufSize otherArgStreamW = .errOther ap1234W := by
  have h := (c7_cmd_continue goBufSize otherArgStreamW
    (OTHERb ++ 32 :: [49, 46, 50, 46, 51, 46, 52, 58, 53] ++ [10]) []
    (by decide)).2.1 (by decide) (by decide) (by decide)
  rw [h]
  decide

/-! ### C8: preflight validation of method and token -/

/-- C8: Client.Do with an empty token or a method other than DIAL/ACCEPT
fails in newMeta and returns (nil conn, nil response, error) no matter what
the rest of Do would do — before any socket or network work, which all lives
in the continuation; and a request with such a method or token is rejected by
the same newMeta validation inside parseRdvRequest once the upgrade checks
pass. -/
theorem c8_preflight (rest : Meta → Option CConn × Option HttpResp × Option MetaErr)
    (method token : GoStr)
    (hbad : token = [] ∨ ¬(method = DIALb ∨ method = ACCEPTb)) :
    (∃ e, clientDoPre rest method token = (none, none, some e)) ∧
    (∀ r : HttpReq, checkUpgradeHeaders r.connectionHdr r.upgradeHdr = true →
      asciiLower r.proto = http11B → r.method = method → cutSlash r.urlPath = token →
      ∃ e2, parseRdvRequest r = .error (.badMeta e2)) := by
  have hnm : ∃ e, newMeta method token = .error e := by
    unfold newMeta
    rcases hbad with h | h
    · rw [if_pos h]
      exact ⟨_, rfl⟩
    · by_cases ht : token = []
      · rw [if_pos ht]
        exact ⟨_, rfl⟩
      · rw [if_neg ht, if_pos h]
        exact ⟨_, rfl⟩
  obtain ⟨e, he⟩ := hnm
  constructor
  · refine ⟨e, ?_⟩
    unfold clientDoPre
    simp only [he]
  · intro r hck hproto hmeth htok
    refine ⟨e, ?_⟩
    unfold parseRdvRequest
    rw [if_neg (by simp [hck]), if_neg (by simp [hproto]), hmeth, htok]
    simp only [he]

/-- Witness: method "GET" with token "z" is rejected by Client.Do before its
continuation runs, and by parseRdvRequest on the server. -/
theorem c8_preflight_witness :
    (∃ e, clientDoPre restW getB [122] = (none, none, some e)) ∧
      (∃ e2, parseRdvRequest reqBadW = .error (.badMeta e2)) :=
  ⟨(c8_preflight restW getB [122] (by decide)).1,
   (c8_preflight restW getB [122] (by decide)).2 reqBadW rfl rfl rfl rfl⟩

/-! ### C9: NoSpaces forces relay-only behavior -/

/-- C9: NoSpaces (bit 31) includes none of the eight enumerated unicast
spaces, so probing yields an empty local-addr map, the computed self-addr
candidate list is empty, and dialAndListen dials no peer addr (every peer
addr misses the empty probe map); only the relay conn remains. -/
theorem c9_nospaces_relay_only :
    (∀ s ∈ enumeratedSpaces, includes NoSpaces s = false) ∧
    (∀ probe : Addr → Addr, probeLocalAddrs NoSpaces probe = []) ∧
    (∀ (probe : Addr → Addr) (port : Nat),
      selfAddrs (probeLocalAddrs NoSpaces probe) port NoSpaces = []) ∧
    (∀ (probe : Addr → Addr) (peerAddrs : List AddrPort),
      dialTargets (probeLocalAddrs NoSpaces probe) peerAddrs = []) := by
  have hprobe : ∀ probe : Addr → Addr, probeLocalAddrs NoSpaces probe = [] := by
    intro probe
    rfl
  refine ⟨by decide, hprobe, ?_, ?_⟩
  · intro probe port
    rw [hprobe]
    rfl
  · intro probe peerAddrs
    rw [hprobe]
    unfold dialTargets
    simp [lookupSpace]

/-- Witness: NoSpaces excludes public4, probing with any oracle yields no
local addrs, and a concrete peer addr is not dialed. -/
theorem c9_nospaces_relay_only_witness :
    includes NoSpaces SpacePublic4 = false ∧
      probeLocalAddrs NoSpaces probeIdW = [] ∧
      selfAddrs (probeLocalAddrs NoSpaces probeIdW) 9 NoSpaces = [] ∧
      dialTargets (probeLocalAddrs NoSpaces probeIdW) [apA] = [] :=
  ⟨c9_nospaces_relay_only.1 SpacePublic4 (by decide),
   c9_nospaces_relay_only.2.1 probeIdW,
   c9_nospaces_relay_only.2.2.1 probeIdW 9,
   c9_nospaces_relay_only.2.2.2 probeIdW [apA]⟩

/-! ### C10: ACCEPT always uses PickFirst -/

/-- C10: whatever Picker is configured (including none, which defaults to
WaitForP2P of one second), Client.Do overrides it with PickFirst() when the
method is ACCEPT; any non-ACCEPT method — in particular DIAL, the only other
method Do admits — keeps the configured or default picker. -/
theorem c10_accept_pickfirst :
    (∀ cfg : Option ConnPickerCfg, effectivePicker cfg ACCEPTb = PickFirst) ∧
    (∀ cfg : Option ConnPickerCfg,
      effectivePicker cfg DIALb = cfg.getD (WaitForP2P oneSecondNs)) ∧
    (∀ (cfg : Option ConnPickerCfg) (method : GoStr), method ≠ ACCEPTb →
      effectivePicker cfg method = cfg.getD (WaitForP2P oneSecondNs)) := by
  refine ⟨fun cfg => ?_, fun cfg => ?_, fun cfg method h => ?_⟩
  · unfold effectivePicker
    rw [if_pos rfl]
  · unfold effectivePicker
    rw [if_neg (by decide)]
  · unfold effectivePicker
    rw [if_neg h]

/-- Witness: with WaitConstant(5) configured, the DIAL side keeps it. -/
theorem c10_accept_pickfirst_witness :
    effectivePicker (some (WaitConstant 5)) DIALb =
      (some (WaitConstant 5)).getD (WaitForP2P oneSecondNs) :=
  c10_accept_pickfirst.2.2 (some (WaitConstant 5)) DIALb (by decide)

end Rdv
